import Mathlib

/-
Verification of the MoonRabbit state-coordinate extraction core
(`src/ingestion/NWS_station_finding/extract_state_coordinates.py`).

Modelling conventions (shallow embedding):
- pandas float64 values are modelled exactly, as `PyFloat`: either a
  canonical decimal number `Dec` (an integer mantissa not divisible by 10
  unless zero, times a power of ten) or a signed infinity, which
  `pd.to_numeric` produces from the textual spellings "inf"/"infinity".
  Equality of `PyFloat` models float equality; every value arising in this
  pipeline is parsed from decimal or infinity text, where the model is
  faithful up to float rounding.  NaN is never a present value here: the
  coercion uses NaN as its absent marker, modelled as an absent cell.
- A DataFrame is a `Table`: a list of column names plus rows of cells; a
  cell is `Option PyVal` (`none` models NaN / a missing field).
- `pd.read_csv(..., dtype=str)` (the primary read) yields string cells;
  `pd.read_csv(...)` (the secondary read) performs per-column dtype
  inference, modelled by `columnKind` / `inferCell`: a column whose
  non-null values all parse as integers (and that has no nulls) becomes
  int64, a column whose non-null values all parse as decimals becomes
  float64, anything else stays object (string).
- Python `str()` on cell values is `pyStr`; `str(float)` is rendered in
  plain decimal (no scientific notation for extreme exponents, which never
  arise in the claims).
- The filesystem is an association list from path to raw table; a path
  absent from it models a file that cannot be opened.
- `groupby` emits its groups in ascending key order (pandas default
  `sort=True`); keys are ordered by `pvLe` (numeric before string, which
  pandas would reject for mixed columns, but a read column is always
  homogeneous).
-/

namespace MoonRabbit

/-! ### Exact decimal numbers (model of float64 values) -/

/-- A decimal number `num * 10 ^ exp` in canonical form: `num` is not
divisible by 10 unless it is 0, and the zero value is `⟨0, 0⟩`.  Structural
equality of canonical forms coincides with value equality. -/
structure Dec where
  num : Int
  exp : Int
deriving DecidableEq

/-- Numeric value of a list of decimal digit characters (most significant
first). -/
def digitsVal (ds : List Char) : Nat :=
  ds.foldl (fun a c => 10 * a + (c.toNat - 48)) 0

/-- Remove trailing `'0'` characters. -/
def stripZeros (ds : List Char) : List Char :=
  (ds.reverse.dropWhile (fun c => c == '0')).reverse

/-- Canonical decimal from a sign, a digit list (mantissa) and an exponent
of its last digit. -/
def mkDec (neg : Bool) (ds : List Char) (e : Int) : Dec :=
  let ds2 := stripZeros ds
  if ds2.isEmpty then { num := 0, exp := 0 }
  else
    let n : Int := Int.ofNat (digitsVal ds2)
    { num := if neg then -n else n, exp := e + Int.ofNat (ds.length - ds2.length) }

/-- The canonical decimal with the value of an integer (float(n)). -/
def decOfInt (n : Int) : Dec :=
  mkDec (decide (n < 0)) (Nat.toDigits 10 n.natAbs) 0

/-- Value comparison of two canonical decimals. -/
def decLe (a b : Dec) : Bool :=
  if a.exp ≤ b.exp then decide (a.num ≤ b.num * (10 : Int) ^ (b.exp - a.exp).toNat)
  else decide (a.num * (10 : Int) ^ (a.exp - b.exp).toNat ≤ b.num)

/-- A float64 value: a finite decimal in canonical form, or an infinity
(`inf true` is negative infinity).  `pd.to_numeric` produces infinities
from the textual spellings "inf"/"infinity", so they are genuine values of
the pipeline, distinct from the absent marker (NaN, modelled as `none` at
the cell level). -/
inductive PyFloat where
  | finite (d : Dec)
  | inf (neg : Bool)
deriving DecidableEq

/-- Shorthand for a finite float value, used by concrete instances. -/
def fdec (n e : Int) : PyFloat :=
  PyFloat.finite { num := n, exp := e }

/-- Value comparison of two float values: negative infinity below
everything, positive infinity above everything. -/
def pfLe (a b : PyFloat) : Bool :=
  match a, b with
  | PyFloat.inf true, _ => true
  | _, PyFloat.inf true => false
  | _, PyFloat.inf false => true
  | PyFloat.inf false, _ => false
  | PyFloat.finite a, PyFloat.finite b => decLe a b

/-- Decimal digit string of a natural number. -/
def natDigitsStr (n : Nat) : String :=
  String.mk (Nat.toDigits 10 n)

/-- Decimal string of an integer, as Python `str(int)` renders it. -/
def intStr (n : Int) : String :=
  (if n < 0 then "-" else "") ++ natDigitsStr n.natAbs

/-- Python `str(float)` on a finite canonical decimal: integral values
render with a trailing `.0`, fractional values in plain decimal.  (Python
switches to scientific notation for extreme exponents; those never arise
here.) -/
def renderDec (d : Dec) : String :=
  if 0 ≤ d.exp then
    (if d.num < 0 then "-" else "") ++ natDigitsStr (d.num.natAbs * 10 ^ d.exp.toNat) ++ ".0"
  else
    let k := (-d.exp).toNat
    let n := d.num.natAbs
    let fds := Nat.toDigits 10 (n % 10 ^ k)
    (if d.num < 0 then "-" else "")
      ++ natDigitsStr (n / 10 ^ k) ++ "."
      ++ String.mk (List.replicate (k - fds.length) '0' ++ fds)

/-- Python `str(float)` on any float value (`str(float("inf"))` is "inf",
its negation "-inf"). -/
def renderFloat : PyFloat → String
  | PyFloat.finite d => renderDec d
  | PyFloat.inf false => "inf"
  | PyFloat.inf true => "-inf"

/-! ### Text parsing (model of `pd.to_numeric(..., errors="coerce")` and of
the `read_csv` integer parser) -/

/-- Strip leading and trailing whitespace characters. -/
def trimChars (cs : List Char) : List Char :=
  ((cs.dropWhile Char.isWhitespace).reverse.dropWhile Char.isWhitespace).reverse

/-- Consume an optional leading sign; `true` means negative. -/
def parseSign (cs : List Char) : Bool × List Char :=
  match cs with
  | [] => (false, [])
  | c :: rest => if c = '-' then (true, rest) else if c = '+' then (false, rest) else (false, cs)

/-- After the mantissa `ip.fp` was read, parse the optional exponent part
and the end of input, and produce the value. -/
def parseExpPart (neg : Bool) (ip fp : List Char) : List Char → Option Dec
  | [] => some (mkDec neg (ip ++ fp) (-(Int.ofNat fp.length)))
  | c :: rest =>
    if c == 'e' || c == 'E' then
      let sr := parseSign rest
      let ed := sr.2.takeWhile Char.isDigit
      let r2 := sr.2.dropWhile Char.isDigit
      if ed.isEmpty || !r2.isEmpty then none
      else
        let ev : Int := if sr.1 then -(Int.ofNat (digitsVal ed)) else Int.ofNat (digitsVal ed)
        some (mkDec neg (ip ++ fp) (ev - Int.ofNat fp.length))
    else none

/-- Parse a (whitespace-trimmed) character list as a decimal number:
optional sign, digits with an optional fractional part (at least one digit
overall), optional exponent. -/
def parseDecimalChars (cs : List Char) : Option PyFloat :=
  let s1 := parseSign cs
  if s1.2.map Char.toLower = ['i', 'n', 'f'] ∨
      s1.2.map Char.toLower = ['i', 'n', 'f', 'i', 'n', 'i', 't', 'y'] then
    some (PyFloat.inf s1.1)
  else
    let ip := s1.2.takeWhile Char.isDigit
    let cs2 := s1.2.dropWhile Char.isDigit
    let fp := if cs2.head? = some '.' then cs2.tail.takeWhile Char.isDigit else []
    let cs3 := if cs2.head? = some '.' then cs2.tail.dropWhile Char.isDigit else cs2
    if ip.isEmpty && fp.isEmpty then none
    else (parseExpPart s1.1 ip fp cs3).map PyFloat.finite

/-- Model of parsing one text value with `pd.to_numeric(..., errors="coerce")`:
the decimal value of the text, a signed infinity for the spellings
"inf"/"infinity" (case-insensitive, as the pandas string-to-float parser
recognizes them), or `none` when it does not parse. -/
def parseDecimal (s : String) : Option PyFloat :=
  parseDecimalChars (trimChars s.toList)

/-- Model of the `read_csv` integer parser: optional sign followed by one
or more digits, nothing else. -/
def parseIntText (s : String) : Option Int :=
  let sr := parseSign s.toList
  if !sr.2.isEmpty && sr.2.all Char.isDigit then
    some (if sr.1 then -(Int.ofNat (digitsVal sr.2)) else Int.ofNat (digitsVal sr.2))
  else none

/-! ### Cells, tables and reading -/

/-- A value held by a DataFrame cell: a string (object dtype), an int64 or
a float64. -/
inductive PyVal where
  | vstr (s : String)
  | vint (n : Int)
  | vfloat (f : PyFloat)
deriving DecidableEq

/-- A cell: `none` models NaN / a missing value. -/
abbrev Cell := Option PyVal

/-- A coordinate pair (longitude, latitude) of float values. -/
abbrev Coord := PyFloat × PyFloat

/-- A raw tabular text source: column names and rows of optional text
fields (an empty field reads as missing). -/
structure RawTable where
  cols : List String
  rows : List (List (Option String))

/-- A loaded DataFrame. -/
structure Table where
  cols : List String
  rows : List (List Cell)

/-- Python `str.strip()`. -/
def pyStrip (s : String) : String :=
  String.mk (trimChars s.toList)

/-- Python `str.lower()` (character-wise). -/
def lowerStr (s : String) : String :=
  String.mk (s.toList.map Char.toLower)

/-- Python `str()` on a cell value. -/
def pyStr : PyVal → String
  | PyVal.vstr s => s
  | PyVal.vint n => intStr n
  | PyVal.vfloat f => renderFloat f

/-- Index of a column name in the header (the header length when absent). -/
def colIdx (cols : List String) (c : String) : Nat :=
  cols.findIdx (fun x => x == c)

/-- The cell of a row under a column name (missing column reads as NaN;
the orchestrator only reads columns it has checked to exist). -/
def cellAt (cols : List String) (r : List Cell) (c : String) : Cell :=
  r.getD (colIdx cols c) none

/-- Embeds `pd.read_csv(path, sep="\t", dtype=str, ...)` followed by
`df.columns.str.strip()`: all values are kept as opaque text. -/
def readPrimary (t : RawTable) : Table :=
  { cols := t.cols.map pyStrip
    rows := t.rows.map (fun r => r.map (fun c => c.map PyVal.vstr)) }

/-- The inferred dtype of a column. -/
inductive ColKind where
  | kint
  | kfloat
  | kstr
deriving DecidableEq

/-- Embeds `read_csv` dtype inference for one column of raw text: int64 when every
field is present and parses as an integer, float64 when every present field
parses as a decimal, object (text) otherwise. -/
def columnKind (cells : List (Option String)) : ColKind :=
  let nonNull := cells.filterMap id
  if nonNull.isEmpty then ColKind.kstr
  else if cells.all Option.isSome && nonNull.all (fun s => (parseIntText s).isSome) then
    ColKind.kint
  else if nonNull.all (fun s => (parseDecimal s).isSome) then ColKind.kfloat
  else ColKind.kstr

/-- Convert one raw field according to the column's inferred dtype. -/
def inferCell : ColKind → Option String → Cell
  | ColKind.kint, c => c.bind (fun s => (parseIntText s).map PyVal.vint)
  | ColKind.kfloat, c => c.bind (fun s => (parseDecimal s).map PyVal.vfloat)
  | ColKind.kstr, c => c.map PyVal.vstr

/-- Embeds `pd.read_csv(path)` (dtype inference per column) followed by
`df.columns.str.strip()`. -/
def readSecondary (t : RawTable) : Table :=
  let n := t.cols.length
  let kinds := (List.range n).map (fun j => columnKind (t.rows.map (fun r => r.getD j none)))
  { cols := t.cols.map pyStrip
    rows := t.rows.map (fun r =>
      (List.range n).map (fun j => inferCell (kinds.getD j ColKind.kstr) (r.getD j none))) }

/-! ### Numeric coercion (`_safe_to_float`) -/

/-- Embeds `pd.to_numeric(value, errors="coerce")` on one cell: NaN stays absent,
numeric values pass through, text is parsed or becomes absent. -/
def toNumericCell : Cell → Option PyFloat
  | none => none
  | some (PyVal.vstr s) => parseDecimal s
  | some (PyVal.vint n) => some (PyFloat.finite (decOfInt n))
  | some (PyVal.vfloat f) => some f

/-- Embeds `_safe_to_float`: convert a whole column with
`pd.to_numeric(series, errors="coerce")` (elementwise). -/
def _safe_to_float (col : List Cell) : List Cell :=
  col.map (fun c => (toNumericCell c).map PyVal.vfloat)

/-- One row's part of the column assignment `df[c] = _safe_to_float(df[c])`:
replace the cell under `c` by its numeric coercion. -/
def coerceRow (cols : List String) (r : List Cell) (c : String) : List Cell :=
  r.set (colIdx cols c) ((toNumericCell (r.getD (colIdx cols c) none)).map PyVal.vfloat)

/-- Embeds the column assignment `df[c] = _safe_to_float(df[c])`,
elementwise over the rows. -/
def coerceCol (cols : List String) (rows : List (List Cell)) (c : String) :
    List (List Cell) :=
  rows.map (fun r => coerceRow cols r c)

/-! ### The region index (Python dict model) -/

/-- A region index: insertion-ordered mapping from region code to its
coordinate sequence. -/
abbrev Index := List (String × List Coord)

/-- Dict lookup (first entry with the key; a dict never has two). -/
def dictGet : Index → String → Option (List Coord)
  | [], _ => none
  | p :: d, k => if p.1 = k then some p.2 else dictGet d k

/-- Overwrite the value at an existing key, keeping its position. -/
def dictSetVal (d : Index) (k : String) (v : List Coord) : Index :=
  d.map (fun p => if p.1 = k then (k, v) else p)

/-- Python dict assignment `d[k] = v`: overwrite in place or append. -/
def dictInsert (d : Index) (k : String) (v : List Coord) : Index :=
  if (dictGet d k).isSome then dictSetVal d k v else d ++ [(k, v)]

/-! ### Index builder (`_build_state_to_coords_from_df`) -/

/-- The dedup-append loop of the builder and the merger: walk `cs`, keeping
a coordinate only on its first sight relative to the `seen` set, appending
kept ones to `acc`. -/
def dedupCoords (seen acc : List Coord) : List Coord → List Coord
  | [] => acc
  | c :: cs => if c ∈ seen then dedupCoords seen acc cs
               else dedupCoords (c :: seen) (acc ++ [c]) cs

/-- Lexicographic order on character lists (Python string comparison). -/
def charListLe : List Char → List Char → Bool
  | [], _ => true
  | _ :: _, [] => false
  | a :: as, b :: bs => if a = b then charListLe as bs else decide (a < b)

/-- The numeric value of a cell value, for sorting group keys. -/
def pvNum : PyVal → PyFloat
  | PyVal.vint n => PyFloat.finite (decOfInt n)
  | PyVal.vfloat f => f
  | PyVal.vstr _ => PyFloat.finite { num := 0, exp := 0 }

/-- Ordering of group keys (pandas sorts groups by key; read columns are
homogeneous, the cross-dtype case never arises). -/
def pvLe (a b : PyVal) : Bool :=
  match a, b with
  | PyVal.vstr s, PyVal.vstr t => charListLe s.toList t.toList
  | PyVal.vstr _, _ => false
  | _, PyVal.vstr _ => true
  | a, b => pfLe (pvNum a) (pvNum b)

/-- Sort group keys ascending (pandas `groupby` default `sort=True`). -/
def sortKeys (l : List PyVal) : List PyVal :=
  List.insertionSort (fun a b => pvLe a b = true) l

/-- The builder rows after the two column coercions
(`df[lon_col] = _safe_to_float(df[lon_col])` and likewise for latitude). -/
def builderRows (df : Table) (lon_col lat_col : String) : List (List Cell) :=
  coerceCol df.cols (coerceCol df.cols df.rows lon_col) lat_col

/-- The rows surviving `df.dropna(subset=[lon_col, lat_col, state_col])`. -/
def survivingRows (df : Table) (state_col lon_col lat_col : String) :
    List (List Cell) :=
  (builderRows df lon_col lat_col).filter (fun r =>
    ((cellAt df.cols r lon_col).isSome && (cellAt df.cols r lat_col).isSome)
      && (cellAt df.cols r state_col).isSome)

/-- The float value of an already-coerced coordinate cell
(`.astype(float)`; on surviving rows the cell is always a float). -/
def ratAt (cols : List String) (r : List Cell) (c : String) : PyFloat :=
  (toNumericCell (cellAt cols r c)).getD (PyFloat.finite { num := 0, exp := 0 })

/-- The group of surviving rows holding the key `pv` in the state column. -/
def groupRows (df : Table) (state_col lon_col lat_col : String) (pv : PyVal) :
    List (List Cell) :=
  (survivingRows df state_col lon_col lat_col).filter (fun r =>
    decide (cellAt df.cols r state_col = some pv))

/-- The (lon, lat) stream of one group, in row order. -/
def groupCoords (df : Table) (state_col lon_col lat_col : String) (pv : PyVal) :
    List Coord :=
  (groupRows df state_col lon_col lat_col pv).map (fun r =>
    (ratAt df.cols r lon_col, ratAt df.cols r lat_col))

/-- Embeds `_build_state_to_coords_from_df`: coerce the two coordinate
columns, drop rows with a missing state or coordinate, group by the state
value and collect each group's first-occurrence-deduplicated coordinate
list under the stringified key. -/
def _build_state_to_coords_from_df (df : Table)
    (state_col lon_col lat_col : String) : Index :=
  let survivors := survivingRows df state_col lon_col lat_col
  let keys := sortKeys ((survivors.filterMap (fun r => cellAt df.cols r state_col)).dedup)
  keys.foldl (fun d pv =>
    dictInsert d (pyStr pv)
      (dedupCoords [] [] (groupCoords df state_col lon_col lat_col pv))) []

/-! ### Index merger (`_merge_state_coord_dicts`) -/

/-- The merge loop over the additional index's items. -/
def mergeAdd : Index → Index → Index
  | merged, [] => merged
  | merged, (st, coords) :: rest =>
    match dictGet merged st with
    | none => mergeAdd (merged ++ [(st, coords)]) rest
    | some cur => mergeAdd (dictSetVal merged st (cur ++ dedupCoords cur [] coords)) rest

/-- Embeds `_merge_state_coord_dicts`: start from (a fresh copy of) the
base index, then for each additional region either copy its list verbatim
(new region) or append its not-yet-seen coordinates in order. -/
def _merge_state_coord_dicts (base additional : Index) : Index :=
  mergeAdd base additional

/-! ### Schema detector (`_detect_lat_lon_columns`) -/

/-- Embeds `lower_cols[k]`: the column whose lowercasing is `k`; the dict
comprehension keeps the last one on collisions. -/
def lookupLower (cols : List String) (k : String) : Option String :=
  (cols.filter (fun c => lowerStr c == k)).getLast?

/-- The ordered candidate (lon, lat) name pairs from the source. -/
def lat_lon_candidates : List (String × String) :=
  [("longitude", "latitude"), ("lon", "lat"), ("long", "lat"), ("intptlong", "intptlat")]

/-- Embeds `_detect_lat_lon_columns`: the first candidate pair whose two
names both occur (case-insensitively) among the columns, reported with the
columns' original case. -/
def _detect_lat_lon_columns (cols : List String) : Option (String × String) :=
  lat_lon_candidates.findSome? (fun p =>
    match lookupLower cols p.1, lookupLower cols p.2 with
    | some lc, some tc => some (lc, tc)
    | _, _ => none)

/-! ### Orchestrator (`extract_state_coordinates`) -/

/-- The exceptions the orchestrator can raise: `FileNotFoundError` (the
spec's SourceNotFoundError) and `ValueError` (the spec's SchemaError). -/
inductive PyError where
  | sourceNotFound (msg : String)
  | schemaError (msg : String)
deriving DecidableEq

/-- The readable filesystem: paths mapped to their raw tabular content; an
absent path models a file that cannot be opened. -/
abbrev FileSystem := List (String × RawTable)

/-- Look a path up in the filesystem. -/
def fsLookup : FileSystem → String → Option RawTable
  | [], _ => none
  | p :: fs, k => if p.1 = k then some p.2 else fsLookup fs k

/-- Embeds `series.isin(allowed_set)` on one cell, where the allowed set holds
strings: only a string cell equal to a member passes (an int64/float64
value never equals a string). -/
def isinStr (c : Cell) (al : List String) : Bool :=
  match c with
  | some (PyVal.vstr s) => al.contains s
  | _ => false

/-- Embeds `df = df[df[sc].isin(allowed_set)]`. -/
def filterByState (t : Table) (sc : String) (al : List String) : Table :=
  { cols := t.cols
    rows := t.rows.filter (fun r => isinStr (cellAt t.cols r sc) al) }

/-- The ordered state-column candidates for the secondary source. -/
def state_col_candidates : List String :=
  ["State", "USPS", "state", "usps"]

/-- The source's local `df_gaz` after the optional allow-list filter: the
loaded primary table, restricted to allowed states when a filter is given. -/
def gazFiltered (rawGaz : RawTable) (al : Option (List String)) : Table :=
  match al with
  | some a => filterByState (readPrimary rawGaz) "USPS" a
  | none => readPrimary rawGaz

/-- The source's local `state_to_coords`: the index built from the
(possibly filtered) primary table with its fixed schema. -/
def primaryIndex (rawGaz : RawTable) (al : Option (List String)) : Index :=
  _build_state_to_coords_from_df (gazFiltered rawGaz al) "USPS" "INTPTLONG" "INTPTLAT"

/-- The source's local `df_csv` after the optional allow-list filter. -/
def csvFiltered (rawCsv : RawTable) (sc : String) (al : Option (List String)) : Table :=
  match al with
  | some a => filterByState (readSecondary rawCsv) sc a
  | none => readSecondary rawCsv

/-- Embeds `extract_state_coordinates`: load the gazetteer (raising
`FileNotFoundError` when absent), check its three required columns (raising
`ValueError` otherwise), filter by the allow-list, build the primary index;
then, when a CSV path is given, load it (raising `FileNotFoundError` when
absent), resolve a state column and coordinate columns — silently keeping
just the primary index when either resolution fails — and otherwise build
and merge the secondary index. -/
def extract_state_coordinates (fs : FileSystem) (gazetteer_path : String)
    (csv_path : Option String) (allowed_states : Option (List String)) :
    Except PyError Index :=
  match fsLookup fs gazetteer_path with
  | none => Except.error (PyError.sourceNotFound ("Gazetteer file not found: " ++ gazetteer_path))
  | some rawGaz =>
    if "USPS" ∈ (readPrimary rawGaz).cols ∧ "INTPTLONG" ∈ (readPrimary rawGaz).cols
        ∧ "INTPTLAT" ∈ (readPrimary rawGaz).cols then
      match csv_path with
      | none => Except.ok (primaryIndex rawGaz allowed_states)
      | some p =>
        match fsLookup fs p with
        | none => Except.error (PyError.sourceNotFound ("CSV file not found: " ++ p))
        | some rawCsv =>
          match state_col_candidates.find? (fun c => (readSecondary rawCsv).cols.contains c) with
          | none => Except.ok (primaryIndex rawGaz allowed_states)
          | some sc =>
            match _detect_lat_lon_columns (csvFiltered rawCsv sc allowed_states).cols with
            | none => Except.ok (primaryIndex rawGaz allowed_states)
            | some lt =>
              Except.ok (_merge_state_coord_dicts (primaryIndex rawGaz allowed_states)
                (_build_state_to_coords_from_df (csvFiltered rawCsv sc allowed_states) sc lt.1 lt.2))
    else Except.error (PyError.schemaError "Missing required columns in gazetteer")

/-! ### Specification-side notions -/

/-- First-occurrence-wins deduplication, as the spec describes it: keep
each element's first occurrence, drop the later ones. -/
def firstWins : List Coord → List Coord
  | [] => []
  | c :: cs => c :: (firstWins cs).filter (fun x => decide (x ≠ c))

/-! ### Dictionary lemmas -/

theorem dictGet_eq_none_iff (d : Index) (k : String) :
    dictGet d k = none ↔ k ∉ d.map Prod.fst := by
  induction d with
  | nil => simp [dictGet]
  | cons p d ih =>
    by_cases h : p.1 = k
    · simp [dictGet, h]
    · simp [dictGet, h, ih, Ne.symm h]

theorem dictGet_mem {d : Index} {k : String} {v : List Coord}
    (h : dictGet d k = some v) : (k, v) ∈ d := by
  induction d with
  | nil => simp [dictGet] at h
  | cons p d ih =>
    by_cases hp : p.1 = k
    · simp [dictGet, hp] at h
      have hpv : (k, v) = p := by
        cases p
        simp_all
      rw [hpv]
      exact List.mem_cons_self _ _
    · simp [dictGet, hp] at h
      exact List.mem_cons_of_mem _ (ih h)

theorem dictGet_append_of_none {d : Index} {k : String} (e : Index)
    (h : dictGet d k = none) : dictGet (d ++ e) k = dictGet e k := by
  induction d with
  | nil => simp
  | cons p d ih =>
    by_cases hp : p.1 = k
    · simp [dictGet, hp] at h
    · simp [dictGet, hp] at h ⊢
      exact ih h

theorem dictGet_append_of_some {d : Index} {k : String} {v : List Coord} (e : Index)
    (h : dictGet d k = some v) : dictGet (d ++ e) k = some v := by
  induction d with
  | nil => simp [dictGet] at h
  | cons p d ih =>
    by_cases hp : p.1 = k
    · simp [dictGet, hp] at h ⊢
      exact h
    · simp [dictGet, hp] at h ⊢
      exact ih h

theorem dictGet_setVal_self {d : Index} {k : String} (v : List Coord)
    (h : (dictGet d k).isSome) : dictGet (dictSetVal d k v) k = some v := by
  induction d with
  | nil => simp [dictGet] at h
  | cons p d ih =>
    by_cases hp : p.1 = k
    · simp [dictGet, dictSetVal, hp]
    · simp [dictGet, dictSetVal, hp] at h ⊢
      exact ih h

theorem dictGet_setVal_ne {d : Index} {k k' : String} (v : List Coord)
    (h : k' ≠ k) : dictGet (dictSetVal d k v) k' = dictGet d k' := by
  induction d with
  | nil => rfl
  | cons p d ih =>
    simp only [dictSetVal, List.map_cons] at ih ⊢
    by_cases hp : p.1 = k
    · rw [if_pos hp]
      have h1 : ((k, v) : String × List Coord).1 ≠ k' := Ne.symm h
      have h2 : p.1 ≠ k' := by rw [hp]; exact Ne.symm h
      rw [dictGet, if_neg h1, ih, dictGet, if_neg h2]
    · rw [if_neg hp]
      by_cases hp' : p.1 = k'
      · rw [dictGet, if_pos hp', dictGet, if_pos hp']
      · rw [dictGet, if_neg hp', ih, dictGet, if_neg hp']

theorem mem_dictSetVal {d : Index} {k : String} {v : List Coord} {p : String × List Coord}
    (h : p ∈ dictSetVal d k v) : p = (k, v) ∨ p ∈ d := by
  rcases List.mem_map.1 h with ⟨q, hq, rfl⟩
  by_cases hqk : q.1 = k
  · simp [hqk]
  · simp [hqk]
    right
    exact hq

theorem mem_dictInsert {d : Index} {k : String} {v : List Coord} {p : String × List Coord}
    (h : p ∈ dictInsert d k v) : p = (k, v) ∨ p ∈ d := by
  unfold dictInsert at h
  by_cases hs : (dictGet d k).isSome
  · rw [if_pos hs] at h
    exact mem_dictSetVal h
  · rw [if_neg hs] at h
    rcases List.mem_append.1 h with h1 | h1
    · exact Or.inr h1
    · simp at h1
      exact Or.inl h1

/-! ### Deduplication lemmas -/

theorem mem_firstWins {l : List Coord} {x : Coord} (h : x ∈ firstWins l) : x ∈ l := by
  induction l with
  | nil => simp [firstWins] at h
  | cons c cs ih =>
    simp only [firstWins, List.mem_cons] at h
    rcases h with rfl | h
    · exact List.mem_cons_self _ _
    · exact List.mem_cons_of_mem _ (ih (List.mem_filter.1 h).1)

theorem nodup_firstWins (l : List Coord) : (firstWins l).Nodup := by
  induction l with
  | nil => simp [firstWins]
  | cons c cs ih =>
    simp only [firstWins]
    refine List.Nodup.cons ?_ (List.Nodup.filter _ ih)
    intro hc
    have := (List.mem_filter.1 hc).2
    simp at this

theorem firstWins_of_nodup {l : List Coord} (h : l.Nodup) : firstWins l = l := by
  induction l with
  | nil => rfl
  | cons c cs ih =>
    simp only [firstWins]
    have hcs : cs.Nodup := h.of_cons
    rw [ih hcs]
    congr 1
    apply List.filter_eq_self.2
    intro a ha
    have : a ≠ c := by
      rintro rfl
      exact (List.nodup_cons.1 h).1 ha
    simp [this]

theorem dedupCoords_eq (l : List Coord) :
    ∀ seen acc, dedupCoords seen acc l =
      acc ++ (firstWins l).filter (fun c => decide (c ∉ seen)) := by
  induction l with
  | nil => intro seen acc; simp [dedupCoords, firstWins]
  | cons c cs ih =>
    intro seen acc
    by_cases hc : c ∈ seen
    · rw [dedupCoords, if_pos hc, ih]
      simp only [firstWins, List.filter_cons]
      have : (decide (c ∉ seen)) = false := by simp [hc]
      rw [this]
      rw [List.filter_filter]
      congr 1
      apply List.filter_congr
      intro a _
      by_cases has : a ∈ seen
      · simp [has]
      · have : a ≠ c := by rintro rfl; exact has hc
        simp [has, this]
    · rw [dedupCoords, if_neg hc, ih]
      simp only [firstWins, List.filter_cons]
      have : (decide (c ∉ seen)) = true := by simp [hc]
      rw [this]
      rw [List.filter_filter]
      simp only [List.append_assoc, List.singleton_append]
      congr 2
      apply List.filter_congr
      intro a _
      by_cases hac : a = c
      · subst hac
        simp
      · by_cases has : a ∈ seen
        · simp [has, hac]
        · simp [has, hac]

theorem dedupCoords_nil_nil (l : List Coord) : dedupCoords [] [] l = firstWins l := by
  rw [dedupCoords_eq]
  simp

theorem dedupCoords_of_nodup {l : List Coord} (h : l.Nodup) (cur : List Coord) :
    dedupCoords cur [] l = l.filter (fun c => decide (c ∉ cur)) := by
  rw [dedupCoords_eq, firstWins_of_nodup h]
  simp

theorem mem_dedupCoords_start {l cur : List Coord} {x : Coord}
    (h : x ∈ dedupCoords cur [] l) : x ∈ l := by
  rw [dedupCoords_eq] at h
  simp only [List.nil_append] at h
  exact mem_firstWins (List.mem_filter.1 h).1

theorem nodup_dedupCoords_start (l cur : List Coord) : (dedupCoords cur [] l).Nodup := by
  rw [dedupCoords_eq]
  simp only [List.nil_append]
  exact List.Nodup.filter _ (nodup_firstWins l)

theorem dedupCoords_disjoint {l cur : List Coord} {x : Coord}
    (h : x ∈ dedupCoords cur [] l) : x ∉ cur := by
  rw [dedupCoords_eq] at h
  simp only [List.nil_append] at h
  have := (List.mem_filter.1 h).2
  simpa using this

/-! ### Merger lemmas -/

theorem keys_dictSetVal (d : Index) (k : String) (v : List Coord) :
    (dictSetVal d k v).map Prod.fst = d.map Prod.fst := by
  simp only [dictSetVal, List.map_map]
  apply List.map_congr_left
  intro q _
  by_cases h : q.1 = k <;> simp [h]

theorem dictGet_mergeAdd (add : Index) :
    ∀ (m : Index) (k : String), (add.map Prod.fst).Nodup →
    dictGet (mergeAdd m add) k =
      match dictGet add k with
      | none => dictGet m k
      | some bs =>
        match dictGet m k with
        | none => some bs
        | some cur => some (cur ++ dedupCoords cur [] bs) := by
  induction add with
  | nil => intro m k _; rfl
  | cons q rest ih =>
    intro m k hnd
    obtain ⟨st, coords⟩ := q
    have hst : st ∉ rest.map Prod.fst := by simpa using (List.nodup_cons.1 hnd).1
    have hrest : (rest.map Prod.fst).Nodup := (List.nodup_cons.1 hnd).2
    have hrestnone : dictGet rest st = none := (dictGet_eq_none_iff rest st).2 hst
    rcases hm : dictGet m st with _ | cur
    · have hstep : mergeAdd m ((st, coords) :: rest) = mergeAdd (m ++ [(st, coords)]) rest := by
        rw [mergeAdd, hm]
      rw [hstep, ih _ k hrest]
      by_cases hk : st = k
      · subst hk
        have h1 : dictGet ((st, coords) :: rest) st = some coords := by
          simp [dictGet]
        simp only [hrestnone, h1, hm]
        rw [dictGet_append_of_none _ hm]
        simp [dictGet]
      · have h1 : dictGet ((st, coords) :: rest) k = dictGet rest k := by
          simp [dictGet, hk]
        have h2 : dictGet (m ++ [(st, coords)]) k = dictGet m k := by
          rcases hmk : dictGet m k with _ | v
          · rw [dictGet_append_of_none _ hmk]
            simp [dictGet, hk]
          · exact dictGet_append_of_some _ hmk
        simp only [h1, h2]
    · have hstep : mergeAdd m ((st, coords) :: rest) =
        mergeAdd (dictSetVal m st (cur ++ dedupCoords cur [] coords)) rest := by
        rw [mergeAdd, hm]
      rw [hstep, ih _ k hrest]
      by_cases hk : st = k
      · subst hk
        have h1 : dictGet ((st, coords) :: rest) st = some coords := by
          simp [dictGet]
        have hs : (dictGet m st).isSome := by rw [hm]; rfl
        simp only [hrestnone, h1, hm]
        exact dictGet_setVal_self _ hs
      · have h1 : dictGet ((st, coords) :: rest) k = dictGet rest k := by
          simp [dictGet, hk]
        simp only [h1, dictGet_setVal_ne _ (Ne.symm hk)]

theorem mergeAdd_key_mem : ∀ (add m : Index), ∀ p ∈ mergeAdd m add,
    p.1 ∈ m.map Prod.fst ∨ p.1 ∈ add.map Prod.fst := by
  intro add
  induction add with
  | nil =>
    intro m p hp
    exact Or.inl (List.mem_map.2 ⟨p, hp, rfl⟩)
  | cons q rest ih =>
    intro m p hp
    obtain ⟨st, coords⟩ := q
    rcases hm : dictGet m st with _ | cur
    · have hstep : mergeAdd m ((st, coords) :: rest) = mergeAdd (m ++ [(st, coords)]) rest := by
        rw [mergeAdd, hm]
      rw [hstep] at hp
      rcases ih _ p hp with h | h
      · rw [List.map_append] at h
        rcases List.mem_append.1 h with h1 | h1
        · exact Or.inl h1
        · simp at h1
          right
          simp [h1]
      · right
        simp only [List.map_cons, List.mem_cons]
        exact Or.inr h
    · have hstep : mergeAdd m ((st, coords) :: rest) =
        mergeAdd (dictSetVal m st (cur ++ dedupCoords cur [] coords)) rest := by
        rw [mergeAdd, hm]
      rw [hstep] at hp
      rcases ih _ p hp with h | h
      · rw [keys_dictSetVal] at h
        exact Or.inl h
      · right
        simp only [List.map_cons, List.mem_cons]
        exact Or.inr h

theorem mergeAdd_nodup : ∀ (add m : Index), (∀ p ∈ m, p.2.Nodup) → (∀ p ∈ add, p.2.Nodup) →
    ∀ p ∈ mergeAdd m add, p.2.Nodup := by
  intro add
  induction add with
  | nil =>
    intro m hm _ p hp
    exact hm p hp
  | cons q rest ih =>
    intro m hm hadd p hp
    obtain ⟨st, coords⟩ := q
    have hcoords : coords.Nodup := hadd (st, coords) (List.mem_cons_self _ _)
    have hrest : ∀ p ∈ rest, p.2.Nodup := fun p hp => hadd p (List.mem_cons_of_mem _ hp)
    rcases hm' : dictGet m st with _ | cur
    · have hstep : mergeAdd m ((st, coords) :: rest) = mergeAdd (m ++ [(st, coords)]) rest := by
        rw [mergeAdd, hm']
      rw [hstep] at hp
      refine ih _ ?_ hrest p hp
      intro q hq
      rcases List.mem_append.1 hq with h1 | h1
      · exact hm q h1
      · simp at h1
        rw [h1]
        exact hcoords
    · have hstep : mergeAdd m ((st, coords) :: rest) =
        mergeAdd (dictSetVal m st (cur ++ dedupCoords cur [] coords)) rest := by
        rw [mergeAdd, hm']
      rw [hstep] at hp
      refine ih _ ?_ hrest p hp
      intro q hq
      rcases mem_dictSetVal hq with h1 | h1
      · rw [h1]
        have hcur : cur.Nodup := hm (st, cur) (dictGet_mem hm')
        refine List.Nodup.append hcur (nodup_dedupCoords_start _ _) ?_
        intro a ha hdc
        exact dedupCoords_disjoint hdc ha
      · exact hm q h1

/-- C1: For every base index A and additional index B (with B a well-formed
region index: distinct region keys and duplicate-free sequences), the merge
maps a region present in both to A's sequence followed by exactly those of
B's coordinates not already in A's sequence, in B's order; a region only in
B to B's sequence verbatim; and a region only in A to A's sequence
verbatim. -/
theorem C1_merge_base_priority (A B : Index)
    (hBk : (B.map Prod.fst).Nodup) (hBv : ∀ p ∈ B, p.2.Nodup) (r : String) :
    (∀ as bs, dictGet A r = some as → dictGet B r = some bs →
      dictGet (_merge_state_coord_dicts A B) r =
        some (as ++ bs.filter (fun c => decide (c ∉ as)))) ∧
    (dictGet A r = none → ∀ bs, dictGet B r = some bs →
      dictGet (_merge_state_coord_dicts A B) r = some bs) ∧
    (dictGet B r = none →
      dictGet (_merge_state_coord_dicts A B) r = dictGet A r) := by
  refine ⟨?_, ?_, ?_⟩
  · intro as bs hA hB
    rw [_merge_state_coord_dicts, dictGet_mergeAdd B A r hBk]
    have hbs : bs.Nodup := hBv (r, bs) (dictGet_mem hB)
    simp only [hB, hA]
    rw [dedupCoords_of_nodup hbs]
  · intro hA bs hB
    rw [_merge_state_coord_dicts, dictGet_mergeAdd B A r hBk]
    simp only [hB, hA]
  · intro hB
    rw [_merge_state_coord_dicts, dictGet_mergeAdd B A r hBk]
    simp only [hB]

/-- Witness for C1 at concrete indexes: A and B share region "IA", B alone
holds "MN", A alone holds "OH". -/
theorem C1_merge_base_priority_witness :
    dictGet (_merge_state_coord_dicts
        [("IA", [(fdec 1 0, fdec 2 0), (fdec 3 0, fdec 4 0)]),
         ("OH", [(fdec 9 0, fdec 9 0)])]
        [("IA", [(fdec 3 0, fdec 4 0), (fdec 5 0, fdec 6 0)]),
         ("MN", [(fdec 7 0, fdec 8 0)])]) "IA" =
      some ([(fdec 1 0, fdec 2 0), (fdec 3 0, fdec 4 0)] ++
        List.filter (fun c => decide (c ∉ [(fdec 1 0, fdec 2 0), (fdec 3 0, fdec 4 0)]))
          [(fdec 3 0, fdec 4 0), (fdec 5 0, fdec 6 0)]) :=
  (C1_merge_base_priority
    [("IA", [(fdec 1 0, fdec 2 0), (fdec 3 0, fdec 4 0)]),
     ("OH", [(fdec 9 0, fdec 9 0)])]
    [("IA", [(fdec 3 0, fdec 4 0), (fdec 5 0, fdec 6 0)]),
     ("MN", [(fdec 7 0, fdec 8 0)])]
    (by decide) (by decide) "IA").1
    [(fdec 1 0, fdec 2 0), (fdec 3 0, fdec 4 0)]
    [(fdec 3 0, fdec 4 0), (fdec 5 0, fdec 6 0)]
    (by decide) (by decide)

/-! ### Cell access lemmas -/

theorem getD_set_eq {α : Type} (l : List α) (i j : Nat) (a d : α) :
    (l.set i a).getD j d = if i = j ∧ j < l.length then a else l.getD j d := by
  rw [List.getD_eq_getElem?_getD, List.getD_eq_getElem?_getD, List.getElem?_set]
  by_cases hij : i = j
  · subst hij
    by_cases hlen : i < l.length
    · simp [hlen]
    · have : l.length ≤ i := Nat.le_of_not_lt hlen
      simp [hlen, List.getElem?_eq_none this]
  · simp [hij]

theorem colIdx_lt {cols : List String} {c : String} (h : c ∈ cols) :
    colIdx cols c < cols.length :=
  List.findIdx_lt_length_of_exists ⟨c, h, by simp⟩

theorem colIdx_get {cols : List String} {c : String} (h : c ∈ cols) :
    cols.get ⟨colIdx cols c, colIdx_lt h⟩ = c := by
  have hg := @List.findIdx_get String (fun x => x == c) cols (colIdx_lt h)
  simpa using hg

theorem colIdx_ne {cols : List String} {b c : String} (hb : b ∈ cols) (hbc : b ≠ c) :
    colIdx cols b ≠ colIdx cols c := by
  intro heq
  by_cases hc : c ∈ cols
  · have h1 := colIdx_get hb
    have h2 := colIdx_get hc
    apply hbc
    rw [← h1, ← h2]
    congr 1
    exact Fin.ext heq
  · have h2 : colIdx cols c = cols.length := by
      apply List.findIdx_eq_length.2
      intro x hx
      simp only [beq_eq_false_iff_ne, ne_eq]
      rintro rfl
      exact hc hx
    rw [h2] at heq
    exact absurd heq (Nat.ne_of_lt (colIdx_lt hb))

theorem toNumericCell_map_vfloat (o : Option PyFloat) :
    toNumericCell (o.map PyVal.vfloat) = o := by
  cases o <;> rfl

/-- The coerced cell under the coerced column. -/
theorem cellAt_coerceRow_self (cols : List String) (r : List Cell) (c : String) :
    cellAt cols (coerceRow cols r c) c = (toNumericCell (cellAt cols r c)).map PyVal.vfloat := by
  unfold cellAt coerceRow
  rw [getD_set_eq]
  by_cases hlt : colIdx cols c < r.length
  · simp [hlt]
  · have hle : r.length ≤ colIdx cols c := Nat.le_of_not_lt hlt
    simp only [hlt, and_false, if_false]
    rw [List.getD_eq_default _ _ hle]
    rfl

/-- Coercing another column does not touch the cell under `c`. -/
theorem cellAt_coerceRow_ne (cols : List String) (r : List Cell) {b c : String}
    (hc : c ∈ cols) (hcb : c ≠ b) :
    cellAt cols (coerceRow cols r b) c = cellAt cols r c := by
  unfold cellAt coerceRow
  rw [getD_set_eq]
  have : colIdx cols b ≠ colIdx cols c := Ne.symm (colIdx_ne hc hcb)
  simp [this]

/-- The rows fed to the grouping loop, as a map over the input rows. -/
theorem builderRows_eq_map (df : Table) (lc tc : String) :
    builderRows df lc tc =
      df.rows.map (fun r => coerceRow df.cols (coerceRow df.cols r lc) tc) := by
  unfold builderRows coerceCol
  rw [List.map_map]
  rfl

/-- The longitude cell of a fully coerced row is the numeric coercion of
the row's original longitude cell. -/
theorem cellAt_builder_lon (cols : List String) (r : List Cell) {lc tc : String}
    (hlc : lc ∈ cols) :
    cellAt cols (coerceRow cols (coerceRow cols r lc) tc) lc =
      (toNumericCell (cellAt cols r lc)).map PyVal.vfloat := by
  by_cases h : lc = tc
  · subst h
    rw [cellAt_coerceRow_self, cellAt_coerceRow_self, toNumericCell_map_vfloat]
  · rw [cellAt_coerceRow_ne cols _ hlc h, cellAt_coerceRow_self]

/-- The latitude cell of a fully coerced row is the numeric coercion of
the row's original latitude cell. -/
theorem cellAt_builder_lat (cols : List String) (r : List Cell) {lc tc : String}
    (htc : tc ∈ cols) :
    cellAt cols (coerceRow cols (coerceRow cols r lc) tc) tc =
      (toNumericCell (cellAt cols r tc)).map PyVal.vfloat := by
  rw [cellAt_coerceRow_self]
  by_cases h : tc = lc
  · subst h
    rw [cellAt_coerceRow_self, toNumericCell_map_vfloat]
  · rw [cellAt_coerceRow_ne cols _ htc h]

/-- The state cell of a fully coerced row is the row's original state cell
(the state column is distinct from both coordinate columns). -/
theorem cellAt_builder_state (cols : List String) (r : List Cell) {sc lc tc : String}
    (hsc : sc ∈ cols) (h1 : sc ≠ lc) (h2 : sc ≠ tc) :
    cellAt cols (coerceRow cols (coerceRow cols r lc) tc) sc = cellAt cols r sc := by
  rw [cellAt_coerceRow_ne cols _ hsc h2, cellAt_coerceRow_ne cols _ hsc h1]

/-! ### Builder lemmas -/

theorem foldl_dictInsert_mem (f : PyVal → List Coord) :
    ∀ (keys : List PyVal) (d : Index),
      ∀ p ∈ keys.foldl (fun d pv => dictInsert d (pyStr pv) (f pv)) d,
        p ∈ d ∨ ∃ pv ∈ keys, p = (pyStr pv, f pv) := by
  intro keys
  induction keys with
  | nil => intro d p hp; exact Or.inl hp
  | cons pv rest ih =>
    intro d p hp
    rw [List.foldl_cons] at hp
    rcases ih _ p hp with h | ⟨pv', hpv', hp'⟩
    · rcases mem_dictInsert h with h1 | h1
      · exact Or.inr ⟨pv, List.mem_cons_self _ _, h1⟩
      · exact Or.inl h1
    · exact Or.inr ⟨pv', List.mem_cons_of_mem _ hpv', hp'⟩

/-- Every entry of the builder's output is the first-occurrence-deduplicated
coordinate stream of one group, keyed by the stringified group key, and the
group key is the state cell of some surviving row. -/
theorem build_entry {df : Table} {sc lc tc : String} {p : String × List Coord}
    (hp : p ∈ _build_state_to_coords_from_df df sc lc tc) :
    ∃ pv, (∃ r ∈ survivingRows df sc lc tc, cellAt df.cols r sc = some pv) ∧
      p = (pyStr pv, firstWins (groupCoords df sc lc tc pv)) := by
  unfold _build_state_to_coords_from_df at hp
  rcases foldl_dictInsert_mem _ _ _ p hp with h | ⟨pv, hpv, hp'⟩
  · simp at h
  · refine ⟨pv, ?_, ?_⟩
    · have h1 : pv ∈ ((survivingRows df sc lc tc).filterMap
        (fun r => cellAt df.cols r sc)).dedup := by
        have hperm := List.perm_insertionSort (fun a b => pvLe a b = true)
          ((survivingRows df sc lc tc).filterMap (fun r => cellAt df.cols r sc)).dedup
        exact hperm.mem_iff.1 hpv
      rcases List.mem_filterMap.1 (List.mem_dedup.1 h1) with ⟨r, hr, hcell⟩
      exact ⟨r, hr, hcell⟩
    · rw [hp', dedupCoords_nil_nil]

theorem build_nodup {df : Table} {sc lc tc : String} :
    ∀ p ∈ _build_state_to_coords_from_df df sc lc tc, p.2.Nodup := by
  intro p hp
  rcases build_entry hp with ⟨pv, _, hp'⟩
  rw [hp']
  exact nodup_firstWins _

/-! ### Orchestrator case analysis -/

/-- A successful run returns either the primary index alone or the merge of
the primary index with a secondary index built from a resolvable CSV. -/
theorem extract_ok_shape {fs : FileSystem} {gaz : String} {csvp : Option String}
    {al : Option (List String)} {idx : Index}
    (h : extract_state_coordinates fs gaz csvp al = Except.ok idx) :
    ∃ rawGaz, fsLookup fs gaz = some rawGaz ∧
      "USPS" ∈ (readPrimary rawGaz).cols ∧
      (idx = primaryIndex rawGaz al ∨
       ∃ p rawCsv sc lt, csvp = some p ∧ fsLookup fs p = some rawCsv ∧
         state_col_candidates.find? (fun c => (readSecondary rawCsv).cols.contains c) = some sc ∧
         _detect_lat_lon_columns (csvFiltered rawCsv sc al).cols = some lt ∧
         idx = _merge_state_coord_dicts (primaryIndex rawGaz al)
           (_build_state_to_coords_from_df (csvFiltered rawCsv sc al) sc lt.1 lt.2)) := by
  unfold extract_state_coordinates at h
  split at h
  · exact absurd h (by simp)
  · rename_i rawGaz hg
    split at h
    · rename_i hcols
      refine ⟨rawGaz, hg, hcols.1, ?_⟩
      split at h
      · left
        injection h with h1
        exact h1.symm
      · rename_i p
        split at h
        · exact absurd h (by simp)
        · rename_i rawCsv hcsv
          split at h
          · left
            injection h with h1
            exact h1.symm
          · rename_i sc hfind
            split at h
            · left
              injection h with h1
              exact h1.symm
            · rename_i lt hdet
              right
              injection h with h1
              exact ⟨p, rawCsv, sc, lt, rfl, hcsv, hfind, hdet, h1.symm⟩
    · exact absurd h (by simp)

/-- C7: In every builder output, and in every successfully produced final
index, no region's sequence holds the same coordinate at two positions; a
builder sequence is exactly the first-occurrence-wins deduplication of its
group's coordinate stream (not merely adjacent-duplicate removal). -/
theorem C7_dedup_invariant :
    (∀ (df : Table) (sc lc tc : String),
      ∀ p ∈ _build_state_to_coords_from_df df sc lc tc,
        p.2.Nodup ∧ ∃ pv, p.1 = pyStr pv ∧ p.2 = firstWins (groupCoords df sc lc tc pv)) ∧
    (∀ (fs : FileSystem) (gaz : String) (csvp : Option String)
      (al : Option (List String)) (idx : Index),
      extract_state_coordinates fs gaz csvp al = Except.ok idx →
      ∀ p ∈ idx, p.2.Nodup) := by
  constructor
  · intro df sc lc tc p hp
    rcases build_entry hp with ⟨pv, _, hp'⟩
    rw [hp']
    exact ⟨nodup_firstWins _, pv, rfl, rfl⟩
  · intro fs gaz csvp al idx h p hp
    rcases extract_ok_shape h with ⟨rawGaz, _, _, hcase⟩
    rcases hcase with rfl | ⟨q, rawCsv, sc, lt, _, _, _, _, rfl⟩
    · exact build_nodup p hp
    · exact mergeAdd_nodup _ _ (fun q hq => build_nodup q hq) (fun q hq => build_nodup q hq) p hp

/-- C6: Every coordinate entry of the builder's output originates in an
input row whose region cell is present and whose longitude and latitude
cells both coerce to numbers (equal to the recorded pair); hence a row with
an absent region, or an absent, empty or unparsable coordinate, contributes
no entry. -/
theorem C6_drop_invariant (df : Table) (sc lc tc : String)
    (hsc : sc ∈ df.cols) (hlc : lc ∈ df.cols) (htc : tc ∈ df.cols)
    (h1 : sc ≠ lc) (h2 : sc ≠ tc) :
    ∀ p ∈ _build_state_to_coords_from_df df sc lc tc, ∀ c ∈ p.2,
      ∃ r ∈ df.rows, (cellAt df.cols r sc).isSome ∧
        toNumericCell (cellAt df.cols r lc) = some c.1 ∧
        toNumericCell (cellAt df.cols r tc) = some c.2 := by
  intro p hp c hc
  rcases build_entry hp with ⟨pv, _, hp'⟩
  rw [hp'] at hc
  have hc2 : c ∈ groupCoords df sc lc tc pv := mem_firstWins hc
  rcases List.mem_map.1 hc2 with ⟨r', hr', hcoord⟩
  have hr'2 : r' ∈ survivingRows df sc lc tc := (List.mem_filter.1 hr').1
  have hsurv := List.mem_filter.1 hr'2
  have hrb : r' ∈ builderRows df lc tc := hsurv.1
  have hcond := hsurv.2
  rw [builderRows_eq_map] at hrb
  rcases List.mem_map.1 hrb with ⟨r, hr, hform⟩
  subst hform
  simp only [Bool.and_eq_true] at hcond
  obtain ⟨⟨hclon, hclat⟩, hcst⟩ := hcond
  rw [cellAt_builder_lon df.cols r hlc] at hclon
  rw [cellAt_builder_lat df.cols r htc] at hclat
  rw [cellAt_builder_state df.cols r hsc h1 h2] at hcst
  obtain ⟨d1, hd1⟩ : ∃ d, toNumericCell (cellAt df.cols r lc) = some d := by
    rcases ho : toNumericCell (cellAt df.cols r lc) with _ | d
    · rw [ho] at hclon
      simp at hclon
    · exact ⟨d, rfl⟩
  obtain ⟨d2, hd2⟩ : ∃ d, toNumericCell (cellAt df.cols r tc) = some d := by
    rcases ho : toNumericCell (cellAt df.cols r tc) with _ | d
    · rw [ho] at hclat
      simp at hclat
    · exact ⟨d, rfl⟩
  refine ⟨r, hr, hcst, ?_, ?_⟩
  · rw [hd1]
    rw [← hcoord]
    simp only [ratAt]
    rw [cellAt_builder_lon df.cols r hlc, toNumericCell_map_vfloat, hd1]
    rfl
  · rw [hd2]
    rw [← hcoord]
    simp only [ratAt]
    rw [cellAt_builder_lat df.cols r htc, toNumericCell_map_vfloat, hd2]
    rfl

/-! ### Concrete instances for witnesses and counterexamples -/

/-- A small gazetteer: three rows for IA, one an exact duplicate. -/
def gazRaw : RawTable :=
  { cols := ["USPS", "INTPTLONG", "INTPTLAT"]
    rows := [[some "IA", some "-93.5", some "42.0"],
             [some "IA", some "-93.5", some "42.0"],
             [some "IA", some "-94.0", some "41.5"]] }

/-- A secondary CSV whose region column holds the numeric-looking code
"01". -/
def csvRaw : RawTable :=
  { cols := ["State", "Lon", "Lat"]
    rows := [[some "01", some "1.5", some "2.5"]] }

/-- A filesystem holding both sources. -/
def fs0 : FileSystem := [("gaz", gazRaw), ("csv", csvRaw)]

/-- Witness for C6 at the concrete gazetteer: the entry (-93.5, 42.0) of
region IA traces back to a fully populated row. -/
theorem C6_drop_invariant_witness :
    ∃ r ∈ (readPrimary gazRaw).rows, (cellAt (readPrimary gazRaw).cols r "USPS").isSome ∧
      toNumericCell (cellAt (readPrimary gazRaw).cols r "INTPTLONG") = some (fdec (-935) (-1)) ∧
      toNumericCell (cellAt (readPrimary gazRaw).cols r "INTPTLAT") = some (fdec 42 0) :=
  C6_drop_invariant (readPrimary gazRaw) "USPS" "INTPTLONG" "INTPTLAT"
    (by decide) (by decide) (by decide) (by decide) (by decide)
    ("IA", [(fdec (-935) (-1), fdec 42 0), (fdec (-94) 0, fdec 415 (-1))])
    (by decide)
    (fdec (-935) (-1), fdec 42 0)
    (by decide)

/-- Witness for C7 at a concrete successful orchestrator run: region IA's
sequence in the final index is duplicate-free. -/
theorem C7_dedup_invariant_witness :
    (("IA" : String), [(fdec (-935) (-1), fdec 42 0), (fdec (-94) 0, fdec 415 (-1))]).2.Nodup :=
  C7_dedup_invariant.2 fs0 "gaz" (some "csv") none
    [("IA", [(fdec (-935) (-1), fdec 42 0), (fdec (-94) 0, fdec 415 (-1))]),
     ("1", [(fdec 15 (-1), fdec 25 (-1))])]
    (by rfl)
    ("IA", [(fdec (-935) (-1), fdec 42 0), (fdec (-94) 0, fdec 415 (-1))])
    (by decide)

/-! ### Schema detector lemmas -/

theorem lookupLower_some {cols : List String} {k c : String}
    (h : lookupLower cols k = some c) : c ∈ cols ∧ lowerStr c = k := by
  unfold lookupLower at h
  rcases hf : cols.filter (fun x => lowerStr x == k) with _ | ⟨a, l⟩
  · rw [hf] at h
    simp at h
  · rw [hf] at h
    have hne : (a :: l) ≠ [] := by simp
    have hmem : c ∈ a :: l := by
      rw [List.getLast?_eq_getLast _ hne] at h
      injection h with h1
      rw [← h1]
      exact List.getLast_mem hne
    rw [← hf] at hmem
    have hm := List.mem_filter.1 hmem
    exact ⟨hm.1, by simpa using hm.2⟩

theorem lookupLower_none {cols : List String} {k : String}
    (h : lookupLower cols k = none) : ∀ c ∈ cols, lowerStr c ≠ k := by
  unfold lookupLower at h
  intro c hc hck
  rcases hf : cols.filter (fun x => lowerStr x == k) with _ | ⟨a, l⟩
  · have : c ∈ cols.filter (fun x => lowerStr x == k) :=
      List.mem_filter.2 ⟨hc, by simp [hck]⟩
    rw [hf] at this
    simp at this
  · rw [hf, List.getLast?_eq_getLast _ (by simp)] at h
    simp at h

theorem findSome?_none_of_find?_none {α β : Type} (f : α → Option β) (g : α → Bool)
    (hfg : ∀ a, (f a).isSome = g a) :
    ∀ l : List α, l.find? g = none → l.findSome? f = none := by
  intro l
  induction l with
  | nil => intro _; rfl
  | cons b l ih =>
    intro h
    rw [List.find?_eq_none] at h
    have hgb : g b = false := by
      have := h b (List.mem_cons_self _ _)
      simpa using this
    have hfb : f b = none := by
      cases hf : f b with
      | none => rfl
      | some v =>
        have := hfg b
        rw [hf, hgb] at this
        simp at this
    rw [List.findSome?_cons, hfb]
    apply ih
    rw [List.find?_eq_none]
    intro a ha
    have := h a (List.mem_cons_of_mem _ ha)
    simpa using this

theorem findSome?_of_find?_some {α β : Type} (f : α → Option β) (g : α → Bool)
    (hfg : ∀ a, (f a).isSome = g a) :
    ∀ (l : List α) (a : α), l.find? g = some a → l.findSome? f = f a := by
  intro l
  induction l with
  | nil => intro a h; simp at h
  | cons b l ih =>
    intro a h
    rw [List.find?_cons] at h
    cases hgb : g b with
    | true =>
      rw [hgb] at h
      have hba : b = a := by
        simpa using h
      subst hba
      have hs : (f b).isSome = true := by rw [hfg]; exact hgb
      rcases Option.isSome_iff_exists.1 hs with ⟨v, hv⟩
      rw [List.findSome?_cons, hv]
    | false =>
      rw [hgb] at h
      have hfb : f b = none := by
        cases hf : f b with
        | none => rfl
        | some v =>
          have := hfg b
          rw [hf, hgb] at this
          simp at this
      rw [List.findSome?_cons, hfb]
      exact ih a h

/-- The pointwise bridge between the detector's match on `lookupLower` and
presence of both names among the columns (case-insensitively). -/
theorem detect_arm_isSome (cols : List String) (lk tk : String) :
    (match lookupLower cols lk, lookupLower cols tk with
      | some lc, some tc => some (lc, tc)
      | _, _ => (none : Option (String × String))).isSome =
    (cols.any (fun c => lowerStr c == lk) && cols.any (fun c => lowerStr c == tk)) := by
  rcases h1 : lookupLower cols lk with _ | lc
  · have hn := lookupLower_none h1
    have ha : cols.any (fun c => lowerStr c == lk) = false := by
      rw [List.any_eq_false]
      intro c hc
      simpa using hn c hc
    simp [ha]
  · rcases h2 : lookupLower cols tk with _ | tc
    · have hn := lookupLower_none h2
      have ha : cols.any (fun c => lowerStr c == tk) = false := by
        rw [List.any_eq_false]
        intro c hc
        simpa using hn c hc
      simp [ha]
    · have m1 := lookupLower_some h1
      have m2 := lookupLower_some h2
      have ha1 : cols.any (fun c => lowerStr c == lk) = true :=
        List.any_eq_true.2 ⟨lc, m1.1, by simp [m1.2]⟩
      have ha2 : cols.any (fun c => lowerStr c == tk) = true :=
        List.any_eq_true.2 ⟨tc, m2.1, by simp [m2.2]⟩
      simp [ha1, ha2]

/-- C5: The detector returns, for the first candidate pair (in the fixed
priority order) both of whose names occur case-insensitively among the
columns, the matching columns in their original case; when no candidate
pair is fully present it reports not-found. -/
theorem C5_schema_detector (cols : List String) :
    (∀ lk tk, lat_lon_candidates.find?
        (fun p => cols.any (fun c => lowerStr c == p.1) && cols.any (fun c => lowerStr c == p.2))
          = some (lk, tk) →
      ∃ lc tc, _detect_lat_lon_columns cols = some (lc, tc) ∧
        lc ∈ cols ∧ tc ∈ cols ∧ lowerStr lc = lk ∧ lowerStr tc = tk) ∧
    (lat_lon_candidates.find?
        (fun p => cols.any (fun c => lowerStr c == p.1) && cols.any (fun c => lowerStr c == p.2))
          = none →
      _detect_lat_lon_columns cols = none) := by
  constructor
  · intro lk tk h
    have hfs := findSome?_of_find?_some
      (fun p => match lookupLower cols p.1, lookupLower cols p.2 with
        | some lc, some tc => some (lc, tc)
        | _, _ => none)
      (fun p => cols.any (fun c => lowerStr c == p.1) && cols.any (fun c => lowerStr c == p.2))
      (fun p => detect_arm_isSome cols p.1 p.2) lat_lon_candidates (lk, tk) h
    have hg := List.find?_some h
    simp only [Bool.and_eq_true, List.any_eq_true] at hg
    rcases h1 : lookupLower cols lk with _ | lc
    · exfalso
      rcases hg.1 with ⟨c, hc, hck⟩
      exact lookupLower_none h1 c hc (by simpa using hck)
    · rcases h2 : lookupLower cols tk with _ | tc
      · exfalso
        rcases hg.2 with ⟨c, hc, hck⟩
        exact lookupLower_none h2 c hc (by simpa using hck)
      · refine ⟨lc, tc, ?_, (lookupLower_some h1).1, (lookupLower_some h2).1,
          (lookupLower_some h1).2, (lookupLower_some h2).2⟩
        have hdet : _detect_lat_lon_columns cols =
            (match lookupLower cols lk, lookupLower cols tk with
              | some lc, some tc => some (lc, tc)
              | _, _ => none) := hfs
        rw [hdet, h1, h2]
  · intro h
    exact findSome?_none_of_find?_none
      (fun p => match lookupLower cols p.1, lookupLower cols p.2 with
        | some lc, some tc => some (lc, tc)
        | _, _ => none)
      (fun p => cols.any (fun c => lowerStr c == p.1) && cols.any (fun c => lowerStr c == p.2))
      (fun p => detect_arm_isSome cols p.1 p.2) lat_lon_candidates h

/-- Witness for C5: columns `Lon`, `Lat`, `State` resolve to the second
candidate pair, case-insensitively, with original case reported. -/
theorem C5_schema_detector_witness :
    ∃ lc tc, _detect_lat_lon_columns ["Lon", "Lat", "State"] = some (lc, tc) ∧
      lc ∈ ["Lon", "Lat", "State"] ∧ tc ∈ ["Lon", "Lat", "State"] ∧
      lowerStr lc = "lon" ∧ lowerStr tc = "lat" :=
  (C5_schema_detector ["Lon", "Lat", "State"]).1 "lon" "lat" (by decide)

/-! ### Orchestrator failure claims -/

/-- C8: A primary path that cannot be opened fails with the file-not-found
error, and a primary source lacking any of USPS, INTPTLONG, INTPTLAT after
whitespace-trimming of column names fails with the schema error; in both
cases the error is returned to the caller and no index is produced. -/
theorem C8_primary_failures :
    (∀ (fs : FileSystem) (gaz : String) (csvp : Option String) (al : Option (List String)),
      fsLookup fs gaz = none →
      extract_state_coordinates fs gaz csvp al =
        Except.error (PyError.sourceNotFound ("Gazetteer file not found: " ++ gaz))) ∧
    (∀ (fs : FileSystem) (gaz : String) (csvp : Option String) (al : Option (List String))
      (rawGaz : RawTable),
      fsLookup fs gaz = some rawGaz →
      ¬("USPS" ∈ rawGaz.cols.map pyStrip ∧ "INTPTLONG" ∈ rawGaz.cols.map pyStrip ∧
        "INTPTLAT" ∈ rawGaz.cols.map pyStrip) →
      extract_state_coordinates fs gaz csvp al =
        Except.error (PyError.schemaError "Missing required columns in gazetteer")) := by
  constructor
  · intro fs gaz csvp al hg
    unfold extract_state_coordinates
    simp only [hg]
  · intro fs gaz csvp al rawGaz hg hcols
    unfold extract_state_coordinates
    simp only [hg]
    have hcols2 : ¬("USPS" ∈ (readPrimary rawGaz).cols ∧ "INTPTLONG" ∈ (readPrimary rawGaz).cols
        ∧ "INTPTLAT" ∈ (readPrimary rawGaz).cols) := hcols
    rw [if_neg hcols2]

/-- A filesystem with a primary source lacking the coordinate columns. -/
def gazBad : RawTable := { cols := ["USPS", "NAME"], rows := [[some "IA", some "x"]] }

/-- Its filesystem. -/
def fs1 : FileSystem := [("bad", gazBad)]

/-- Witness for C8: a missing path and a schema-deficient primary source
each produce the corresponding fatal error. -/
theorem C8_primary_failures_witness :
    extract_state_coordinates fs0 "nope" none none =
      Except.error (PyError.sourceNotFound "Gazetteer file not found: nope") ∧
    extract_state_coordinates fs1 "bad" none none =
      Except.error (PyError.schemaError "Missing required columns in gazetteer") :=
  ⟨C8_primary_failures.1 fs0 "nope" none none rfl,
   C8_primary_failures.2 fs1 "bad" none none gazBad rfl (by decide)⟩

/-! ### Allow-list lemmas -/

theorem isinStr_true {c : Cell} {al : List String} (h : isinStr c al = true) :
    ∃ s, c = some (PyVal.vstr s) ∧ s ∈ al := by
  rcases c with _ | pv
  · simp [isinStr] at h
  · rcases pv with s | n | d
    · exact ⟨s, rfl, List.elem_iff.1 h⟩
    · simp [isinStr] at h
    · simp [isinStr] at h

/-- Every region key built from an allow-list-filtered table belongs to the
allow-list. -/
theorem build_filter_keys (t : Table) (sc lc tc : String) (al : List String)
    (hsc : sc ∈ t.cols) (h1 : sc ≠ lc) (h2 : sc ≠ tc) :
    ∀ p ∈ _build_state_to_coords_from_df (filterByState t sc al) sc lc tc, p.1 ∈ al := by
  intro p hp
  rcases build_entry hp with ⟨pv, ⟨r', hr', hcell⟩, hp'⟩
  have hrb : r' ∈ builderRows (filterByState t sc al) lc tc := (List.mem_filter.1 hr').1
  rw [builderRows_eq_map] at hrb
  rcases List.mem_map.1 hrb with ⟨r, hrmem, hform⟩
  have hrf := List.mem_filter.1 hrmem
  have hisin : isinStr (cellAt t.cols r sc) al = true := hrf.2
  subst hform
  have hcell2 : cellAt t.cols (coerceRow t.cols (coerceRow t.cols r lc) tc) sc = some pv := hcell
  rw [cellAt_builder_state t.cols r hsc h1 h2] at hcell2
  rcases isinStr_true hisin with ⟨s, hs, hsal⟩
  rw [hs] at hcell2
  injection hcell2 with hpv
  rw [hp']
  show pyStr pv ∈ al
  rw [← hpv]
  exact hsal

theorem detect_some_props {cols : List String} {lc tc : String}
    (h : _detect_lat_lon_columns cols = some (lc, tc)) :
    lc ∈ cols ∧ tc ∈ cols ∧
      ∃ p ∈ lat_lon_candidates, lowerStr lc = p.1 ∧ lowerStr tc = p.2 := by
  rcases List.exists_of_findSome?_eq_some h with ⟨p, hp, hfp⟩
  rcases h1 : lookupLower cols p.1 with _ | lc'
  · simp only [h1] at hfp
    simp at hfp
  · rcases h2 : lookupLower cols p.2 with _ | tc'
    · simp only [h1, h2] at hfp
      simp at hfp
    · simp only [h1, h2] at hfp
      injection hfp with hfp1
      have hlc : lc' = lc := congrArg Prod.fst hfp1
      have htc : tc' = tc := congrArg Prod.snd hfp1
      subst hlc
      subst htc
      exact ⟨(lookupLower_some h1).1, (lookupLower_some h2).1, p, hp,
        (lookupLower_some h1).2, (lookupLower_some h2).2⟩

/-- A secondary state-column candidate never coincides with a detected
coordinate column (their lowercasings differ). -/
theorem state_col_ne_latlon {sc lc : String} (hsc : sc ∈ state_col_candidates)
    {p : String × String} (hp : p ∈ lat_lon_candidates)
    (hlc : lowerStr lc = p.1 ∨ lowerStr lc = p.2) : sc ≠ lc := by
  rintro rfl
  simp only [state_col_candidates, List.mem_cons, List.not_mem_nil, or_false] at hsc
  simp only [lat_lon_candidates, List.mem_cons, List.not_mem_nil, or_false] at hp
  rcases hsc with rfl | rfl | rfl | rfl <;>
    rcases hp with rfl | rfl | rfl | rfl <;>
    rcases hlc with h | h <;> revert h <;> decide

/-- C9: When an allow-list is supplied, every region key of a successfully
produced final index is a member of the allow-list. -/
theorem C9_allow_list (fs : FileSystem) (gaz : String) (csvp : Option String)
    (al : List String) (idx : Index)
    (h : extract_state_coordinates fs gaz csvp (some al) = Except.ok idx) :
    ∀ p ∈ idx, p.1 ∈ al := by
  intro p hp
  rcases extract_ok_shape h with ⟨rawGaz, _, husps, hcase⟩
  have hprim : ∀ q ∈ primaryIndex rawGaz (some al), q.1 ∈ al := by
    intro q hq
    exact build_filter_keys (readPrimary rawGaz) "USPS" "INTPTLONG" "INTPTLAT" al husps
      (by decide) (by decide) q hq
  rcases hcase with rfl | ⟨pth, rawCsv, sc, lt, _, _, hfind, hdet, rfl⟩
  · exact hprim p hp
  · rcases mergeAdd_key_mem _ _ p hp with hk | hk
    · rcases List.mem_map.1 hk with ⟨q, hq, hqeq⟩
      rw [← hqeq]
      exact hprim q hq
    · rcases List.mem_map.1 hk with ⟨q, hq, hqeq⟩
      rw [← hqeq]
      have hscand : sc ∈ state_col_candidates := List.mem_of_find?_eq_some hfind
      have hcelem := List.find?_some hfind
      have hsccols : sc ∈ (readSecondary rawCsv).cols := List.elem_iff.1 hcelem
      have hdet2 : _detect_lat_lon_columns (readSecondary rawCsv).cols = some (lt.1, lt.2) := hdet
      rcases detect_some_props hdet2 with ⟨_, _, cp, hcp, hl1, hl2⟩
      have hne1 : sc ≠ lt.1 := state_col_ne_latlon hscand hcp (Or.inl hl1)
      have hne2 : sc ≠ lt.2 := state_col_ne_latlon hscand hcp (Or.inr hl2)
      exact build_filter_keys (readSecondary rawCsv) sc lt.1 lt.2 al hsccols hne1 hne2 q hq

/-- Witness for C9: the allow-list including only IA keeps IA in the final
index built from the concrete sources. -/
theorem C9_allow_list_witness :
    (("IA" : String), [(fdec (-935) (-1), fdec 42 0), (fdec (-94) 0, fdec 415 (-1))]).1
      ∈ ["IA", "MN"] :=
  C9_allow_list fs0 "gaz" (some "csv") ["IA", "MN"]
    [("IA", [(fdec (-935) (-1), fdec 42 0), (fdec (-94) 0, fdec 415 (-1))])]
    (by rfl)
    ("IA", [(fdec (-935) (-1), fdec 42 0), (fdec (-94) 0, fdec 415 (-1))])
    (by decide)

/-! ### Secondary-source degradation (C2) -/

/-- Counterexample to C2 as stated: with a perfectly loadable primary
source, a supplied secondary path that cannot be opened makes the
orchestrator fail with `FileNotFoundError` instead of ignoring the
secondary source. -/
theorem C2_counterexample :
    extract_state_coordinates fs0 "gaz" (some "nope") none =
      Except.error (PyError.sourceNotFound "CSV file not found: nope") :=
  rfl

/-- C2 (amended): a deficiency of an openable secondary source — a missing
region column or missing coordinate columns — never makes the orchestrator
fail: the run equals the run without the secondary source (the primary
index unchanged); an unopenable secondary path, however, is fatal. -/
theorem C2_amended_soft_degradation (fs : FileSystem) (gaz p : String)
    (al : Option (List String)) (rawCsv : RawTable)
    (hcsv : fsLookup fs p = some rawCsv)
    (hdef : state_col_candidates.find? (fun c => (readSecondary rawCsv).cols.contains c) = none
          ∨ _detect_lat_lon_columns (readSecondary rawCsv).cols = none) :
    extract_state_coordinates fs gaz (some p) al = extract_state_coordinates fs gaz none al := by
  unfold extract_state_coordinates
  cases hg : fsLookup fs gaz with
  | none => simp only [hg]
  | some rawGaz =>
    simp only [hg]
    by_cases hcols : ("USPS" ∈ (readPrimary rawGaz).cols ∧ "INTPTLONG" ∈ (readPrimary rawGaz).cols
        ∧ "INTPTLAT" ∈ (readPrimary rawGaz).cols)
    · rw [if_pos hcols, if_pos hcols]
      simp only [hcsv]
      rcases hdef with hdef | hdef
      · simp only [hdef]
      · cases hfind : state_col_candidates.find?
          (fun c => (readSecondary rawCsv).cols.contains c) with
        | none => simp only [hfind]
        | some sc =>
          simp only [hfind]
          have hdetf : _detect_lat_lon_columns (csvFiltered rawCsv sc al).cols = none := by
            have hcols_eq : (csvFiltered rawCsv sc al).cols = (readSecondary rawCsv).cols := by
              cases al <;> rfl
            rw [hcols_eq, hdef]
          simp only [hdetf]
    · rw [if_neg hcols, if_neg hcols]

/-- An openable secondary source with no recognizable region column. -/
def csvNoRegion : RawTable :=
  { cols := ["X", "Lon", "Lat"]
    rows := [[some "IA", some "1.5", some "2.5"]] }

/-- A filesystem holding the gazetteer and the region-less CSV. -/
def fs2 : FileSystem := [("gaz", gazRaw), ("csv", csvNoRegion)]

/-- Witness for the amended C2: with a region-less secondary source the run
equals the run without it. -/
theorem C2_amended_soft_degradation_witness :
    extract_state_coordinates fs2 "gaz" (some "csv") none =
      extract_state_coordinates fs2 "gaz" none none :=
  C2_amended_soft_degradation fs2 "gaz" "csv" none csvNoRegion rfl (Or.inl (by rfl))

/-! ### Region stringification (C3) -/

/-- Counterexample to C3 as stated: the secondary source's region column
holds the raw text "01"; `read_csv` dtype inference coerces it to the
integer 1, so the final index keys it as "1", not as the raw text "01". -/
theorem C3_counterexample :
    csvRaw.rows.map (fun r => r.getD 0 none) = [some "01"] ∧
    extract_state_coordinates fs0 "gaz" (some "csv") none =
      Except.ok [("IA", [(fdec (-935) (-1), fdec 42 0), (fdec (-94) 0, fdec 415 (-1))]),
                 ("1", [(fdec 15 (-1), fdec 25 (-1))])] ∧
    dictGet [("IA", [(fdec (-935) (-1), fdec 42 0), (fdec (-94) 0, fdec 415 (-1))]),
             ("1", [(fdec 15 (-1), fdec 25 (-1))])] "01" = none :=
  ⟨by decide, rfl, by decide⟩

theorem getD_map_vstr (r0 : List (Option String)) (j : Nat) :
    (r0.map (fun c => c.map PyVal.vstr)).getD j none = (r0.getD j none).map PyVal.vstr := by
  have h := @List.getD_map (Option String) (Option PyVal) r0 none j (fun c => c.map PyVal.vstr)
  simpa using h

/-- Every key built from a table whose region cells are all strings is the
very text of some row's region cell. -/
theorem build_keys_vstr (df : Table) (sc lc tc : String)
    (hsc : sc ∈ df.cols) (h1 : sc ≠ lc) (h2 : sc ≠ tc)
    (htext : ∀ r ∈ df.rows, ∀ pv, cellAt df.cols r sc = some pv → ∃ s, pv = PyVal.vstr s) :
    ∀ p ∈ _build_state_to_coords_from_df df sc lc tc,
      ∃ r ∈ df.rows, cellAt df.cols r sc = some (PyVal.vstr p.1) := by
  intro p hp
  rcases build_entry hp with ⟨pv, ⟨r', hr', hcell⟩, hp'⟩
  have hrb : r' ∈ builderRows df lc tc := (List.mem_filter.1 hr').1
  rw [builderRows_eq_map] at hrb
  rcases List.mem_map.1 hrb with ⟨r, hrmem, hform⟩
  subst hform
  have hcell2 : cellAt df.cols (coerceRow df.cols (coerceRow df.cols r lc) tc) sc = some pv :=
    hcell
  rw [cellAt_builder_state df.cols r hsc h1 h2] at hcell2
  rcases htext r hrmem pv hcell2 with ⟨s, rfl⟩
  rw [hp']
  exact ⟨r, hrmem, hcell2⟩

/-- C3 (amended): for the primary source — read with all values as opaque
text — every region key of the built index (with or without allow-list
filtering) is exactly the raw text of some row's region cell; the secondary
source, read with dtype inference, does not enjoy this (see the
counterexample, where the raw region text "01" becomes the key "1"). -/
theorem C3_amended_primary_opaque :
    (∀ (raw : RawTable) (sc lc tc : String), sc ∈ (readPrimary raw).cols → sc ≠ lc → sc ≠ tc →
      ∀ p ∈ _build_state_to_coords_from_df (readPrimary raw) sc lc tc,
        ∃ r ∈ raw.rows, r.getD (colIdx (readPrimary raw).cols sc) none = some p.1) ∧
    (∀ (raw : RawTable) (a : List String) (sc lc tc : String),
      sc ∈ (readPrimary raw).cols → sc ≠ lc → sc ≠ tc →
      ∀ p ∈ _build_state_to_coords_from_df (filterByState (readPrimary raw) sc a) sc lc tc,
        ∃ r ∈ raw.rows, r.getD (colIdx (readPrimary raw).cols sc) none = some p.1) := by
  have key : ∀ (raw : RawTable) (r : List Cell), r ∈ (readPrimary raw).rows →
      ∀ (sc : String) (pv : PyVal), cellAt (readPrimary raw).cols r sc = some pv →
      ∃ r0 ∈ raw.rows, r0.getD (colIdx (readPrimary raw).cols sc) none = some (pyStr pv) ∧
        ∃ s, pv = PyVal.vstr s := by
    intro raw r hr sc pv hcell
    rcases List.mem_map.1 hr with ⟨r0, hr0, hform⟩
    subst hform
    unfold cellAt at hcell
    rw [getD_map_vstr] at hcell
    rcases ho : r0.getD (colIdx (readPrimary raw).cols sc) none with _ | s
    · rw [ho] at hcell
      simp at hcell
    · rw [ho] at hcell
      have hcell3 : some (PyVal.vstr s) = some pv := hcell
      injection hcell3 with hpv
      refine ⟨r0, hr0, ?_, s, hpv.symm⟩
      rw [ho, ← hpv]
      rfl
  constructor
  · intro raw sc lc tc hsc h1 h2 p hp
    have hb := build_keys_vstr (readPrimary raw) sc lc tc hsc h1 h2 ?_ p hp
    · rcases hb with ⟨r, hr, hcell⟩
      rcases key raw r hr sc (PyVal.vstr p.1) hcell with ⟨r0, hr0, hval, _⟩
      exact ⟨r0, hr0, hval⟩
    · intro r hr pv hcell
      rcases key raw r hr sc pv hcell with ⟨_, _, _, s, hs⟩
      exact ⟨s, hs⟩
  · intro raw a sc lc tc hsc h1 h2 p hp
    have hb := build_keys_vstr (filterByState (readPrimary raw) sc a) sc lc tc hsc h1 h2 ?_ p hp
    · rcases hb with ⟨r, hr, hcell⟩
      have hr2 : r ∈ (readPrimary raw).rows := (List.mem_filter.1 hr).1
      rcases key raw r hr2 sc (PyVal.vstr p.1) hcell with ⟨r0, hr0, hval, _⟩
      exact ⟨r0, hr0, hval⟩
    · intro r hr pv hcell
      have hr2 : r ∈ (readPrimary raw).rows := (List.mem_filter.1 hr).1
      rcases key raw r hr2 sc pv hcell with ⟨_, _, _, s, hs⟩
      exact ⟨s, hs⟩

/-- Witness for the amended C3: the key "IA" of the primary build is the
raw text of a region cell of the gazetteer. -/
theorem C3_amended_primary_opaque_witness :
    ∃ r ∈ gazRaw.rows, r.getD (colIdx (readPrimary gazRaw).cols "USPS") none = some "IA" :=
  C3_amended_primary_opaque.1 gazRaw "USPS" "INTPTLONG" "INTPTLAT"
    (by decide) (by decide) (by decide)
    ("IA", [(fdec (-935) (-1), fdec 42 0), (fdec (-94) 0, fdec 415 (-1))])
    (by decide)

/-! ### Numeric coercion lemmas (C4) -/

theorem parseSign_sublist (cs : List Char) : (parseSign cs).2.Sublist cs := by
  unfold parseSign
  cases cs with
  | nil => exact List.Sublist.refl _
  | cons c t =>
    by_cases h1 : c = '-'
    · simp only [if_pos h1]
      exact List.sublist_cons_self _ _
    · by_cases h2 : c = '+'
      · simp only [if_neg h1, if_pos h2]
        exact List.sublist_cons_self _ _
      · simp only [if_neg h1, if_neg h2]
        exact List.Sublist.refl _

theorem trimChars_subset {l : List Char} {x : Char} (h : x ∈ trimChars l) : x ∈ l := by
  unfold trimChars at h
  rw [List.mem_reverse] at h
  have h1 := (List.dropWhile_sublist _).subset h
  rw [List.mem_reverse] at h1
  exact (List.dropWhile_sublist _).subset h1

/-- A successful parse either saw a digit or produced an infinity (the only
digit-free texts the parser accepts are the infinity spellings). -/
theorem parse_digit_or_inf {cs : List Char} {v : PyFloat}
    (h : parseDecimalChars cs = some v) :
    (∃ c ∈ cs, c.isDigit = true) ∨ ∃ b, v = PyFloat.inf b := by
  unfold parseDecimalChars at h
  by_cases hinf : ((parseSign cs).2.map Char.toLower = ['i', 'n', 'f'] ∨
      (parseSign cs).2.map Char.toLower = ['i', 'n', 'f', 'i', 'n', 'i', 't', 'y'])
  · simp only [if_pos hinf] at h
    injection h with h1
    exact Or.inr ⟨(parseSign cs).1, h1.symm⟩
  · simp only [if_neg hinf] at h
    left
    by_cases hip : ((parseSign cs).2.takeWhile Char.isDigit).isEmpty = true
    · by_cases hdot : ((parseSign cs).2.dropWhile Char.isDigit).head? = some '.'
      · by_cases hfp : (((parseSign cs).2.dropWhile Char.isDigit).tail.takeWhile Char.isDigit).isEmpty = true
        · simp only [hip, hdot, if_pos, hfp, Bool.and_self] at h
          simp at h
        · have hfp' : (((parseSign cs).2.dropWhile Char.isDigit).tail.takeWhile Char.isDigit) ≠ [] := by
            simpa [List.isEmpty_iff] using hfp
          rcases List.exists_mem_of_ne_nil _ hfp' with ⟨c, hc⟩
          have hcd := List.mem_takeWhile_imp hc
          have hc1 : c ∈ ((parseSign cs).2.dropWhile Char.isDigit).tail :=
            (List.takeWhile_sublist _).subset hc
          have hc2 : c ∈ (parseSign cs).2.dropWhile Char.isDigit :=
            (List.tail_sublist _).subset hc1
          have hc3 : c ∈ (parseSign cs).2 := (List.dropWhile_sublist _).subset hc2
          exact ⟨c, (parseSign_sublist cs).subset hc3, hcd⟩
      · simp only [hip, hdot, if_neg, List.isEmpty_nil, Bool.and_true] at h
        simp at h
    · have hip' : ((parseSign cs).2.takeWhile Char.isDigit) ≠ [] := by
        simpa [List.isEmpty_iff] using hip
      rcases List.exists_mem_of_ne_nil _ hip' with ⟨c, hc⟩
      have hcd := List.mem_takeWhile_imp hc
      have hc1 : c ∈ (parseSign cs).2 := (List.takeWhile_sublist _).subset hc
      exact ⟨c, (parseSign_sublist cs).subset hc1, hcd⟩

theorem digit_not_ws {c : Char} (h : c.isDigit = true) : c.isWhitespace = false := by
  have h1 : c ≠ ' ' := by rintro rfl; exact absurd h (by decide)
  have h2 : c ≠ '\t' := by rintro rfl; exact absurd h (by decide)
  have h3 : c ≠ '\r' := by rintro rfl; exact absurd h (by decide)
  have h4 : c ≠ '\n' := by rintro rfl; exact absurd h (by decide)
  simp [Char.isWhitespace, h1, h2, h3, h4]

theorem digit_ne_special {c : Char} (h : c.isDigit = true) : c ≠ '-' ∧ c ≠ '+' := by
  constructor <;> rintro rfl <;> exact absurd h (by decide)

theorem digit_bounds {c : Char} (h : c.isDigit = true) : 48 ≤ c.toNat ∧ c.toNat ≤ 57 := by
  simp [Char.isDigit] at h
  exact ⟨h.1, h.2⟩

theorem digit_toLower_eq {c : Char} (h : c.isDigit = true) : c.toLower = c := by
  obtain ⟨_, h2⟩ := digit_bounds h
  unfold Char.toLower
  rw [if_neg]
  rintro ⟨h65, _⟩
  omega

/-- A text starting with a digit is no infinity spelling. -/
theorem digit_head_not_inf {c : Char} (hc : c.isDigit = true) (t : List Char) :
    ¬((c :: t).map Char.toLower = ['i', 'n', 'f'] ∨
      (c :: t).map Char.toLower = ['i', 'n', 'f', 'i', 'n', 'i', 't', 'y']) := by
  have hl : c.toLower = c := digit_toLower_eq hc
  rintro (h | h) <;>
  · rw [List.map_cons, hl] at h
    injection h with h1 _
    rw [h1] at hc
    exact absurd hc (by decide)

theorem parseSign_digit {c : Char} (hc : c.isDigit = true) (t : List Char) :
    parseSign (c :: t) = (false, c :: t) := by
  show (if c = '-' then (true, t) else if c = '+' then (false, t) else (false, c :: t)) =
    (false, c :: t)
  rw [if_neg (digit_ne_special hc).1, if_neg (digit_ne_special hc).2]

theorem dropWhile_ws_eq_self {l : List Char} (h : ∀ c ∈ l, c.isWhitespace = false) :
    l.dropWhile Char.isWhitespace = l := by
  cases l with
  | nil => rfl
  | cons c t =>
    have hc := h c (List.mem_cons_self _ _)
    simp [List.dropWhile_cons, hc]

theorem trimChars_eq_self {l : List Char} (h : ∀ c ∈ l, c.isWhitespace = false) :
    trimChars l = l := by
  unfold trimChars
  rw [dropWhile_ws_eq_self h,
    dropWhile_ws_eq_self (fun c hc => h c (List.mem_reverse.1 hc)), List.reverse_reverse]

theorem takeWhile_append_all {p : Char → Bool} :
    ∀ (l1 l2 : List Char), (∀ c ∈ l1, p c = true) →
      (l1 ++ l2).takeWhile p = l1 ++ l2.takeWhile p ∧
      (l1 ++ l2).dropWhile p = l2.dropWhile p := by
  intro l1
  induction l1 with
  | nil => intro l2 _; exact ⟨rfl, rfl⟩
  | cons c t ih =>
    intro l2 h
    have hc := h c (List.mem_cons_self _ _)
    have iht := ih l2 (fun x hx => h x (List.mem_cons_of_mem _ hx))
    constructor
    · simp [List.takeWhile_cons, hc, iht.1]
    · simp [List.dropWhile_cons, hc, iht.2]

theorem takeWhile_all_eq {p : Char → Bool} {l : List Char} (h : ∀ c ∈ l, p c = true) :
    l.takeWhile p = l ∧ l.dropWhile p = [] := by
  have := takeWhile_append_all l [] h
  simpa using this

/-- Counterexample to C4 as stated: the text "inf" holds no digit and is
not a decimal numeral, yet the coercion maps it to a present value
(positive infinity) rather than to the absent marker — pandas'
string-to-float parser recognizes the infinity spellings. -/
theorem C4_counterexample :
    ("inf" : String).toList.all (fun c => !c.isDigit) = true ∧
    toNumericCell (some (PyVal.vstr "inf")) = some (PyFloat.inf false) :=
  ⟨by decide, by decide⟩

/-- C4 (amended): Numeric coercion is elementwise and total — the output
column has the input's length, absent stays absent, a digit-free text maps
to absent unless it is one of the infinity spellings "inf"/"infinity"
(optionally signed, case-insensitive), which map to a signed infinity;
concrete garbage with digits also coerces to absent, and integer and
fractional decimal numerals coerce to their numeric value. -/
theorem C4_numeric_coercion_total :
    (∀ col : List Cell, (_safe_to_float col).length = col.length) ∧
    (∀ (col : List Cell) (i : Nat), i < col.length →
      (_safe_to_float col).getD i none = (toNumericCell (col.getD i none)).map PyVal.vfloat) ∧
    toNumericCell none = none ∧
    (∀ s : String, (∀ c ∈ s.toList, c.isDigit = false) →
      toNumericCell (some (PyVal.vstr s)) = none ∨
      ∃ b, toNumericCell (some (PyVal.vstr s)) = some (PyFloat.inf b)) ∧
    (toNumericCell (some (PyVal.vstr "12a")) = none ∧
     toNumericCell (some (PyVal.vstr "")) = none ∧
     toNumericCell (some (PyVal.vstr "N/A")) = none) ∧
    (toNumericCell (some (PyVal.vstr "inf")) = some (PyFloat.inf false) ∧
     toNumericCell (some (PyVal.vstr "-Infinity")) = some (PyFloat.inf true) ∧
     toNumericCell (some (PyVal.vstr " +INF ")) = some (PyFloat.inf false)) ∧
    (∀ ds : List Char, ds ≠ [] → (∀ c ∈ ds, c.isDigit = true) →
      toNumericCell (some (PyVal.vstr (String.mk ds))) =
        some (PyFloat.finite (mkDec false ds 0))) ∧
    (∀ ds fs : List Char, ds ≠ [] → (∀ c ∈ ds, c.isDigit = true) →
      (∀ c ∈ fs, c.isDigit = true) →
      toNumericCell (some (PyVal.vstr (String.mk (ds ++ '.' :: fs)))) =
        some (PyFloat.finite (mkDec false (ds ++ fs) (-(Int.ofNat fs.length))))) := by
  refine ⟨?_, ?_, rfl, ?_, ⟨by decide, by decide, by decide⟩,
    ⟨by decide, by decide, by decide⟩, ?_, ?_⟩
  · intro col
    exact List.length_map _ _
  · intro col i hi
    show (col.map (fun c => (toNumericCell c).map PyVal.vfloat)).getD i none = _
    rw [List.getD_eq_getElem?_getD, List.getElem?_map, List.getElem?_eq_getElem hi,
      List.getD_eq_getElem?_getD, List.getElem?_eq_getElem hi]
    rfl
  · intro s hno
    rcases hp : parseDecimal s with _ | v
    · exact Or.inl hp
    · rcases parse_digit_or_inf hp with ⟨c, hc, hdig⟩ | ⟨b, rfl⟩
      · exfalso
        have hcs : c ∈ s.toList := trimChars_subset hc
        rw [hno c hcs] at hdig
        exact absurd hdig (by simp)
      · exact Or.inr ⟨b, hp⟩
  · intro ds hne hdig
    show parseDecimal (String.mk ds) = some (PyFloat.finite (mkDec false ds 0))
    unfold parseDecimal
    have htl : (String.mk ds).toList = ds := rfl
    rw [htl, trimChars_eq_self (fun c hc => digit_not_ws (hdig c hc))]
    cases ds with
    | nil => exact absurd rfl hne
    | cons c t =>
      have hc := hdig c (List.mem_cons_self _ _)
      have hsign : parseSign (c :: t) = (false, c :: t) := parseSign_digit hc t
      unfold parseDecimalChars
      rw [hsign]
      have htk := takeWhile_all_eq hdig
      simp only [if_neg (digit_head_not_inf hc t), htk.1, htk.2]
      simp only [List.head?_nil, reduceCtorEq, if_neg, Bool.and_false]
      show (parseExpPart false (c :: t) [] []).map PyFloat.finite =
        some (PyFloat.finite (mkDec false (c :: t) 0))
      unfold parseExpPart
      simp [mkDec]
  · intro ds fs hne hdigd hdigf
    show parseDecimal (String.mk (ds ++ '.' :: fs)) = _
    unfold parseDecimal
    have htl : (String.mk (ds ++ '.' :: fs)).toList = ds ++ '.' :: fs := rfl
    rw [htl]
    have hnws : ∀ c ∈ ds ++ '.' :: fs, c.isWhitespace = false := by
      intro c hcm
      rcases List.mem_append.1 hcm with hcm | hcm
      · exact digit_not_ws (hdigd c hcm)
      · rcases List.mem_cons.1 hcm with rfl | hcm
        · decide
        · exact digit_not_ws (hdigf c hcm)
    rw [trimChars_eq_self hnws]
    cases ds with
    | nil => exact absurd rfl hne
    | cons c t =>
      have hc := hdigd c (List.mem_cons_self _ _)
      have hsign : parseSign ((c :: t) ++ '.' :: fs) = (false, (c :: t) ++ '.' :: fs) := by
        rw [List.cons_append]
        exact parseSign_digit hc _
      have hinfneg : ¬(((c :: t) ++ '.' :: fs).map Char.toLower = ['i', 'n', 'f'] ∨
          ((c :: t) ++ '.' :: fs).map Char.toLower = ['i', 'n', 'f', 'i', 'n', 'i', 't', 'y']) := by
        rw [List.cons_append]
        exact digit_head_not_inf hc _
      unfold parseDecimalChars
      rw [hsign]
      have hsplit := takeWhile_append_all (c :: t) ('.' :: fs) hdigd
      have hdot : ('.' :: fs).takeWhile Char.isDigit = [] := by
        simp [List.takeWhile_cons]
      have hdotd : ('.' :: fs).dropWhile Char.isDigit = '.' :: fs := by
        simp [List.dropWhile_cons]
      have hfs := takeWhile_all_eq hdigf
      simp only [if_neg hinfneg, hsplit.1, hsplit.2, hdot, hdotd, List.append_nil,
        List.head?_cons, if_pos, List.tail_cons, hfs.1, hfs.2]
      show (parseExpPart false ((c :: t)) fs []).map PyFloat.finite = _
      unfold parseExpPart
      rfl

/-- Witness for C4 at column and text inputs: a mixed column coerces
elementwise; "007" parses to 7 and "3.25" to 3.25. -/
theorem C4_numeric_coercion_total_witness :
    (_safe_to_float [some (PyVal.vstr "1.5"), none, some (PyVal.vstr "zz")]).length = 3 ∧
    (toNumericCell (some (PyVal.vstr "zz")) = none ∨
      ∃ b, toNumericCell (some (PyVal.vstr "zz")) = some (PyFloat.inf b)) ∧
    toNumericCell (some (PyVal.vstr (String.mk ['0', '0', '7']))) =
      some (PyFloat.finite (mkDec false ['0', '0', '7'] 0)) ∧
    toNumericCell (some (PyVal.vstr (String.mk (['3'] ++ '.' :: ['2', '5'])))) =
      some (PyFloat.finite (mkDec false (['3'] ++ ['2', '5']) (-(Int.ofNat 2)))) :=
  ⟨C4_numeric_coercion_total.1 _,
   C4_numeric_coercion_total.2.2.2.1 "zz" (by decide),
   C4_numeric_coercion_total.2.2.2.2.2.2.1 ['0', '0', '7'] (by decide) (by decide),
   C4_numeric_coercion_total.2.2.2.2.2.2.2 ['3'] ['2', '5'] (by decide) (by decide) (by decide)⟩

/-! ### Heap model of the merger (C10)

To reason about mutation and sharing of the Python lists, the merger is
embedded once more with the list storage explicit: a heap of coordinate
lists addressed by allocation order, and indexes holding addresses instead
of lists.  `list(v)` is an allocation of a copy; `merged[state].append(c)`
mutates the addressed list (the per-coordinate appends of the source loop
are written as one store of the finished list — no one reads the list
between the appends). -/

/-- A heap address. -/
abbrev Addr := Nat

/-- The heap: allocated coordinate lists, addressed by position. -/
structure Heap where
  lists : List (List Coord)

/-- A region index whose sequences live on the heap. -/
abbrev HIndex := List (String × Addr)

/-- Read an address. -/
def hget (h : Heap) (a : Addr) : List Coord := h.lists.getD a []

/-- Allocate a fresh list, returning the new heap and its address. -/
def halloc (h : Heap) (v : List Coord) : Heap × Addr :=
  ({ lists := h.lists ++ [v] }, h.lists.length)

/-- Overwrite the list at an address. -/
def hset (h : Heap) (a : Addr) (v : List Coord) : Heap :=
  { lists := h.lists.set a v }

/-- Dict lookup on a heap-based index. -/
def hdictGet : HIndex → String → Option Addr
  | [], _ => none
  | p :: d, k => if p.1 = k then some p.2 else hdictGet d k

/-- Embeds `merged = {k: list(v) for k, v in base.items()}`: allocate a copy of
every list of the base. -/
def copyBase : Heap → HIndex → Heap × HIndex
  | h, [] => (h, [])
  | h, (k, a) :: rest =>
    ((copyBase (halloc h (hget h a)).1 rest).1,
     (k, (halloc h (hget h a)).2) :: (copyBase (halloc h (hget h a)).1 rest).2)

/-- The merge loop over the additional index: a new region allocates a copy
of its list (`merged[state] = list(coords)`); an existing region's list is
mutated in place by appending its unseen coordinates. -/
def mergeLoopH : Heap → HIndex → HIndex → Heap × HIndex
  | h, merged, [] => (h, merged)
  | h, merged, (st, aAdd) :: rest =>
    match hdictGet merged st with
    | none =>
      mergeLoopH (halloc h (hget h aAdd)).1
        (merged ++ [(st, (halloc h (hget h aAdd)).2)]) rest
    | some aM =>
      mergeLoopH (hset h aM (hget h aM ++ dedupCoords (hget h aM) [] (hget h aAdd)))
        merged rest

/-- The heap-explicit embedding of `_merge_state_coord_dicts`. -/
def mergeHeap (h : Heap) (base additional : HIndex) : Heap × HIndex :=
  mergeLoopH (copyBase h base).1 (copyBase h base).2 additional

theorem getD_append_left {α : Type} (l l' : List α) (i : Nat) (d : α) (hi : i < l.length) :
    (l ++ l').getD i d = l.getD i d := by
  rw [List.getD_eq_getElem?_getD, List.getD_eq_getElem?_getD, List.getElem?_append, if_pos hi]

theorem hdictGet_mem {d : HIndex} {k : String} {a : Addr}
    (h : hdictGet d k = some a) : (k, a) ∈ d := by
  induction d with
  | nil => simp [hdictGet] at h
  | cons p d ih =>
    by_cases hp : p.1 = k
    · simp [hdictGet, hp] at h
      have hpv : (k, a) = p := by
        cases p
        simp_all
      rw [hpv]
      exact List.mem_cons_self _ _
    · simp [hdictGet, hp] at h
      exact List.mem_cons_of_mem _ (ih h)

theorem copyBase_spec : ∀ (base : HIndex) (h : Heap),
    h.lists.length ≤ (copyBase h base).1.lists.length ∧
    (∀ i, i < h.lists.length → (copyBase h base).1.lists.getD i [] = h.lists.getD i []) ∧
    (∀ q ∈ (copyBase h base).2, h.lists.length ≤ q.2) := by
  intro base
  induction base with
  | nil =>
    intro h
    exact ⟨Nat.le_refl _, fun i _ => rfl, by simp [copyBase]⟩
  | cons p rest ih =>
    intro h
    obtain ⟨k, a⟩ := p
    have hlen : (halloc h (hget h a)).1.lists.length = h.lists.length + 1 := by
      simp [halloc]
    obtain ⟨ih1, ih2, ih3⟩ := ih (halloc h (hget h a)).1
    refine ⟨?_, ?_, ?_⟩
    · calc h.lists.length ≤ h.lists.length + 1 := Nat.le_succ _
        _ = (halloc h (hget h a)).1.lists.length := hlen.symm
        _ ≤ _ := ih1
    · intro i hi
      have hi1 : i < (halloc h (hget h a)).1.lists.length := by
        rw [hlen]
        exact Nat.lt_succ_of_lt hi
      rw [copyBase]
      rw [ih2 i hi1]
      show (h.lists ++ [hget h a]).getD i [] = h.lists.getD i []
      exact getD_append_left _ _ _ _ hi
    · intro q hq
      rw [copyBase] at hq
      rcases List.mem_cons.1 hq with rfl | hq
      · exact Nat.le_refl _
      · have := ih3 q hq
        rw [hlen] at this
        exact Nat.le_of_succ_le this

theorem mergeLoopH_spec : ∀ (add : HIndex) (h : Heap) (merged : HIndex) (N : Nat),
    N ≤ h.lists.length → (∀ q ∈ merged, N ≤ q.2) →
    N ≤ (mergeLoopH h merged add).1.lists.length ∧
    (∀ i, i < N → (mergeLoopH h merged add).1.lists.getD i [] = h.lists.getD i []) ∧
    (∀ q ∈ (mergeLoopH h merged add).2, N ≤ q.2) := by
  intro add
  induction add with
  | nil =>
    intro h merged N hN hm
    exact ⟨hN, fun i _ => rfl, hm⟩
  | cons p rest ih =>
    intro h merged N hN hm
    obtain ⟨st, aAdd⟩ := p
    rcases hd : hdictGet merged st with _ | aM
    · have hstep : mergeLoopH h merged ((st, aAdd) :: rest) =
        mergeLoopH (halloc h (hget h aAdd)).1
          (merged ++ [(st, (halloc h (hget h aAdd)).2)]) rest := by
        rw [mergeLoopH, hd]
      have hlen : (halloc h (hget h aAdd)).1.lists.length = h.lists.length + 1 := by
        simp [halloc]
      have hN1 : N ≤ (halloc h (hget h aAdd)).1.lists.length := by
        rw [hlen]
        exact Nat.le_succ_of_le hN
      have hm1 : ∀ q ∈ merged ++ [(st, (halloc h (hget h aAdd)).2)], N ≤ q.2 := by
        intro q hq
        rcases List.mem_append.1 hq with hq | hq
        · exact hm q hq
        · simp at hq
          rw [hq]

          exact hN
      obtain ⟨ih1, ih2, ih3⟩ := ih (halloc h (hget h aAdd)).1 _ N hN1 hm1
      rw [hstep]
      refine ⟨ih1, ?_, ih3⟩
      intro i hi
      rw [ih2 i hi]
      show (h.lists ++ [hget h aAdd]).getD i [] = h.lists.getD i []
      exact getD_append_left _ _ _ _ (Nat.lt_of_lt_of_le hi hN)
    · have hstep : mergeLoopH h merged ((st, aAdd) :: rest) =
        mergeLoopH (hset h aM (hget h aM ++ dedupCoords (hget h aM) [] (hget h aAdd)))
          merged rest := by
        rw [mergeLoopH, hd]
      have haM : N ≤ aM := hm (st, aM) (hdictGet_mem hd)
      have hlen : (hset h aM (hget h aM ++ dedupCoords (hget h aM) [] (hget h aAdd))).lists.length
          = h.lists.length := by
        simp [hset]
      have hN1 : N ≤ (hset h aM (hget h aM ++ dedupCoords (hget h aM) [] (hget h aAdd))).lists.length := by
        rw [hlen]
        exact hN
      obtain ⟨ih1, ih2, ih3⟩ := ih _ merged N hN1 hm
      rw [hstep]
      refine ⟨ih1, ?_, ih3⟩
      intro i hi
      rw [ih2 i hi]
      show (h.lists.set aM _).getD i [] = h.lists.getD i []
      rw [getD_set_eq]
      have : ¬(aM = i ∧ i < h.lists.length) := by
        rintro ⟨rfl, _⟩
        exact absurd hi (Nat.not_lt_of_le haM)
      rw [if_neg this]

/-- C10: The merge builds its result from fresh copies: every list
reachable from the base or the additional index has unchanged contents
after the merge, and no address of the result index aliases an address of
either input. -/
theorem C10_merge_frame (h : Heap) (base additional : HIndex)
    (hb : ∀ p ∈ base, p.2 < h.lists.length)
    (ha : ∀ p ∈ additional, p.2 < h.lists.length) :
    (∀ p ∈ base, hget (mergeHeap h base additional).1 p.2 = hget h p.2) ∧
    (∀ p ∈ additional, hget (mergeHeap h base additional).1 p.2 = hget h p.2) ∧
    (∀ q ∈ (mergeHeap h base additional).2, ∀ p ∈ base, q.2 ≠ p.2) ∧
    (∀ q ∈ (mergeHeap h base additional).2, ∀ p ∈ additional, q.2 ≠ p.2) := by
  obtain ⟨c1, c2, c3⟩ := copyBase_spec base h
  obtain ⟨m1, m2, m3⟩ := mergeLoopH_spec additional (copyBase h base).1 (copyBase h base).2
    h.lists.length c1 c3
  have hpres : ∀ i, i < h.lists.length →
      (mergeHeap h base additional).1.lists.getD i [] = h.lists.getD i [] := by
    intro i hi
    show (mergeLoopH (copyBase h base).1 (copyBase h base).2 additional).1.lists.getD i [] = _
    rw [m2 i hi]
    exact c2 i hi
  refine ⟨?_, ?_, ?_, ?_⟩
  · intro p hp
    exact hpres p.2 (hb p hp)
  · intro p hp
    exact hpres p.2 (ha p hp)
  · intro q hq p hp
    have h1 : h.lists.length ≤ q.2 := m3 q hq
    have h2 : p.2 < h.lists.length := hb p hp
    intro heq
    rw [heq] at h1
    exact absurd h2 (Nat.not_lt_of_le h1)
  · intro q hq p hp
    have h1 : h.lists.length ≤ q.2 := m3 q hq
    have h2 : p.2 < h.lists.length := ha p hp
    intro heq
    rw [heq] at h1
    exact absurd h2 (Nat.not_lt_of_le h1)

/-- Witness for C10 at a concrete heap: merging two one-region indexes
leaves the base's stored list intact. -/
theorem C10_merge_frame_witness :
    hget (mergeHeap { lists := [[(fdec 1 0, fdec 2 0)], [(fdec 3 0, fdec 4 0)]] }
      [("IA", 0)] [("IA", 1)]).1 0 =
    hget { lists := [[(fdec 1 0, fdec 2 0)], [(fdec 3 0, fdec 4 0)]] } 0 :=
  (C10_merge_frame { lists := [[(fdec 1 0, fdec 2 0)], [(fdec 3 0, fdec 4 0)]] }
    [("IA", 0)] [("IA", 1)] (by decide) (by decide)).1 ("IA", 0) (by decide)

end MoonRabbit
